import Mathlib

/-!
GitTimes: a shallow embedding of the gittimes ranking and content pipeline.

This file embeds the core pipeline of the repository as executable Lean
definitions and proves the specification claims about them:

* the scoring engine (`scoreRepo` in src/github.js),
* the diversity allocator (`categorizeDiverseForSection` in src/github.js),
* the section fetch orchestrator (`fetchAndEnrichSection`, `fetchAllSections`
  in src/github.js, with the section table from src/sections.js),
* the article generation state machine (`parseArticle`,
  `generateArticleWithRetry`, `generateSectionContent`, `generateAllContent`
  in src/xai.js, plus `parseXPulse` from x-sentiment.js).

Modelling conventions:

* JS number arithmetic is modelled over `ℚ`; the transcendental `Math.log1p`
  is an abstract parameter `log1p : ℚ → ℚ` of the scoring function (the
  claims about scoring depend only on its sign behaviour, which theorems
  take as a hypothesis).  Timestamps are epoch milliseconds as `ℚ` (the JS
  code converts ISO strings with `new Date(...).getTime()`).
* every network call (GitHub search queries, readme/release fetches, LLM
  chat calls) is an oracle passed as a function argument; a JS exception is
  `Except.error ()`.  The per-call internal retry loops live inside those
  collaborators and are absorbed by the oracle.
* JS strings are Lean `String`s.  The regular expressions of xai.js are
  implemented operationally over `List Char`, reproducing the exact
  semantics of the V8 regex engine on the patterns the code uses
  (greedy `\s*` with backtracking, `(.+)` stopping at a newline, global
  scan resumption after each match, `$` matching only at end of input).
* `Array.prototype.sort` with comparator `(a, b) => b._score - a._score`
  is a stable descending sort; it is modelled by a structurally recursive
  stable insertion sort `sortByScoreDesc`, which computes the same list.
-/

namespace GitTimes

/-! JS string primitives. -/

/-- Character class of the JS regex `\s` (also the set trimmed by
`String.prototype.trim`). -/
def jsWS (c : Char) : Bool :=
  c.val = 9 ∨ c.val = 10 ∨ c.val = 11 ∨ c.val = 12 ∨ c.val = 13 ∨ c.val = 32 ∨
  c.val = 0x00a0 ∨ c.val = 0x1680 ∨ (0x2000 ≤ c.val ∧ c.val ≤ 0x200a) ∨
  c.val = 0x2028 ∨ c.val = 0x2029 ∨ c.val = 0x202f ∨ c.val = 0x205f ∨
  c.val = 0x3000 ∨ c.val = 0xfeff

/-- JS `String.prototype.trim` on a character list. -/
def jsTrimList (l : List Char) : List Char :=
  ((l.dropWhile jsWS).reverse.dropWhile jsWS).reverse

/-- JS `String.prototype.trim`. -/
def jsTrim (s : String) : String :=
  ⟨jsTrimList s.data⟩

/-- JS `String.prototype.slice(0, n)` (as characters). -/
def jsSlice (s : String) (n : ℕ) : String :=
  ⟨s.data.take n⟩

/-- Indices at which `pat` occurs as a substring of `s`. -/
def occurrencesOf (pat s : List Char) : List ℕ :=
  (List.range (s.length + 1)).filter fun i => pat.isPrefixOf (s.drop i)

/-- Continuation of a regex match after a literal marker: the semantics of
`\s*(.+)` with a greedy, backtracking `\s*` (which may span newlines) and
`(.+)` (one or more non-newline characters).  Returns the captured group and
the remainder of the input after the match, or `none` if `(.+)` cannot be
satisfied. -/
def matchTail (t : List Char) : Option (List Char × List Char) :=
  let w := t.takeWhile jsWS
  let rest := t.drop w.length
  match rest with
  | _ :: _ =>
    let g := rest.takeWhile (fun c => c ≠ '\n')
    some (g, rest.drop g.length)
  | [] =>
    let rev := w.reverse
    let trailNl := rev.takeWhile (fun c => c = '\n')
    match rev.drop trailNl.length with
    | [] => none
    | c :: _ => some ([c], trailNl.reverse)

/-- Attempt to match `MARKER\s*(.+)` at the head of `s`. -/
def tryMatchAt (marker s : List Char) : Option (List Char × List Char) :=
  if marker.isPrefixOf s then matchTail (s.drop marker.length) else none

/-- Global scan of `/MARKER\s*(.+)/g` via `matchAll`: left-to-right,
non-overlapping, resuming after each match; on failure the engine advances
one position.  `fuel` bounds the recursion (every step shortens the
input). -/
def scanAux (marker : List Char) : ℕ → List Char → List (List Char)
  | 0, _ => []
  | fuel + 1, s =>
    match tryMatchAt marker s with
    | some (g, rest) => g :: scanAux marker fuel rest
    | none =>
      match s with
      | [] => []
      | _ :: t => scanAux marker fuel t

/-- All capture groups of `/MARKER\s*(.+)/g` over `text`. -/
def scanMatches (marker text : String) : List String :=
  (scanAux marker.data (text.data.length + 1) text.data).map fun l => ⟨l⟩

/-- Global scan of `/(?:^|\n)\bMARKER\s*(.+)/g`: like `scanAux` but a match
may start only at the beginning of the input or by consuming a newline. -/
def scanAnchoredAux (marker : List Char) : ℕ → Bool → List Char → List (List Char)
  | 0, _, _ => []
  | fuel + 1, atStart, s =>
    match (if atStart then tryMatchAt marker s else none) with
    | some (g, rest) => g :: scanAnchoredAux marker fuel false rest
    | none =>
      match s with
      | [] => []
      | c :: t =>
        if c = '\n' then
          match tryMatchAt marker t with
          | some (g, rest) => g :: scanAnchoredAux marker fuel false rest
          | none => scanAnchoredAux marker fuel false t
        else scanAnchoredAux marker fuel false t

/-- All capture groups of `/(?:^|\n)\bMARKER\s*(.+)/g` over `text`. -/
def scanAnchored (marker text : String) : List String :=
  (scanAnchoredAux marker.data (text.data.length + 1) true text.data).map fun l => ⟨l⟩

/-- `match?.[1]?.trim() || null` applied to the last match of a scan:
the trimmed last capture group, with the empty string collapsed to
`none`. -/
def lastGroupTrim (groups : List String) : Option String :=
  match groups.getLast? with
  | none => none
  | some g => let t := jsTrim g; if t = "" then none else some t

/-- JS `text.split(sep)` for a literal separator, on character lists.
Leftmost, non-overlapping occurrences; `fuel` bounds the recursion. -/
def splitOnAuxL (sep : List Char) : ℕ → List Char → List Char → List (List Char)
  | 0, acc, s => [acc.reverse ++ s]
  | fuel + 1, acc, s =>
    if sep.isPrefixOf s then
      acc.reverse :: splitOnAuxL sep fuel [] (s.drop sep.length)
    else
      match s with
      | [] => [acc.reverse]
      | c :: t => splitOnAuxL sep fuel (c :: acc) t

/-- JS `text.split(sep)` for a literal (nonempty) separator. -/
def jsSplit (sep text : String) : List String :=
  (splitOnAuxL sep.data (text.data.length + 1) [] text.data).map fun l => ⟨l⟩

/-- JS `||` on nullable strings: the empty string is falsy. -/
def jsOrS : Option String → Option String → Option String
  | some s, b => if s = "" then b else some s
  | none, b => b

/-! Data model of src/github.js. -/

/-- A GitHub release record (`/releases/latest` response). -/
structure Release where
  tag_name : Option String := none
  name : Option String := none
  body : Option String := none
  published_at : Option ℚ := none
  created_at : Option ℚ := none
deriving DecidableEq

/-- A raw repository item as returned by the GitHub search API (or the
OSSInsight trending aggregator), with the fields the core reads.  `score`
holds the `_score` attached by the scoring step. -/
structure Repo where
  full_name : String := ""
  name : String := ""
  html_url : String := ""
  description : Option String := none
  stargazers_count : ℕ := 0
  forks_count : ℕ := 0
  open_issues_count : ℕ := 0
  language : Option String := none
  topics : List String := []
  created_at : ℚ := 0
  pushed_at : ℚ := 0
  _latestRelease : Option Release := none
  _isOSSInsight : Bool := false
  score : ℚ := 0
deriving DecidableEq

/-- Options object of `scoreRepo` (`{ recentRepoNames, now }`). -/
structure ScoreOpts where
  now : ℚ := 0
  recentRepoNames : List String := []

/-- The star-velocity term of `scoreRepo`: `log1p(stars / ageDays) / 5`,
capped at 1.0, with `ageDays = max(ageMs / 86400000, 1)`. -/
def velocityScoreOf (log1p : ℚ → ℚ) (now : ℚ) (repo : Repo) : ℚ :=
  let ageMs := now - repo.created_at
  let ageDays := max (ageMs / 86400000) 1
  let rawVelocity := (repo.stargazers_count : ℚ) / ageDays
  min (log1p rawVelocity / 5) 1

/-- The push-recency term of `scoreRepo`: linear decay over 7 days,
floored at 0. -/
def recencyScoreOf (now : ℚ) (repo : Repo) : ℚ :=
  let pushedMs := now - repo.pushed_at
  max 0 (1 - pushedMs / (7 * 86400000))

/-- The release-bonus term of `scoreRepo`: linear decay over 30 days from
the release date (`published_at || created_at`); flat 0.5 for an undated
release; 0 without a release. -/
def releaseScoreOf (now : ℚ) (repo : Repo) : ℚ :=
  match repo._latestRelease with
  | none => 0
  | some rel =>
    match rel.published_at.or rel.created_at with
    | some relDate => max 0 (1 - ((now - relDate) / 86400000) / 30)
    | none => 1/2

/-- The engagement term of `scoreRepo`:
`min((forks + issues*0.3) / stars, 1)` when `stars > 0`, else 0. -/
def engagementScoreOf (repo : Repo) : ℚ :=
  let stars := (repo.stargazers_count : ℚ)
  let forks := (repo.forks_count : ℚ)
  let issues := (repo.open_issues_count : ℚ)
  if 0 < stars then min ((forks + issues * (3/10)) / stars) 1 else 0

/-- `scoreRepo` from src/github.js: weighted sum of star velocity, push
recency, release bonus and engagement ratio, with the OSSInsight override
and the recent-repo history penalty.  `log1p` abstracts `Math.log1p`. -/
def scoreRepo (log1p : ℚ → ℚ) (repo : Repo) (options : ScoreOpts) : ℚ :=
  let now := options.now
  let velocityScore := velocityScoreOf log1p now repo
  let recencyScore := recencyScoreOf now repo
  let releaseScore := releaseScoreOf now repo
  let engagementScore := engagementScoreOf repo
  let effectiveVelocity := if repo._isOSSInsight then 0 else velocityScore
  let effectiveRecency := if repo._isOSSInsight then 0 else recencyScore
  let score :=
    effectiveVelocity * (35/100) + effectiveRecency * (25/100) +
    releaseScore * (15/100) + engagementScore * (10/100)
  if repo.full_name ∈ options.recentRepoNames then score - 1/2 else score

/-! Diversity allocator (`categorizeDiverseForSection`). -/

/-- Slot budget of a section (`{ secondary, quickHits }`). -/
structure Budget where
  secondary : ℕ := 0
  quickHits : ℕ := 0
deriving DecidableEq

/-- `repo.language || "Unknown"`. -/
def langOf (r : Repo) : String := r.language.getD "Unknown"

/-- `new Set(top15.map(r => r.language || "Unknown")).size`: the number of
distinct languages among the top 15 candidates. -/
def distinctLangCount (scoredRepos : List Repo) : ℕ :=
  ((scoredRepos.take 15).map langOf).dedup.length

/-- `Math.max(2, Math.ceil(totalPromoted / distinctLangs))`, the adaptive
per-language cap. -/
def maxPerLangOf (scoredRepos : List Repo) (totalPromoted : ℕ) : ℕ :=
  max 2 ((totalPromoted + distinctLangCount scoredRepos - 1) / distinctLangCount scoredRepos)

/-- State of the single promotion walk over the sorted candidate list:
`promoted`, `overflow`, and the per-language counter object. -/
structure WalkState where
  promoted : List Repo
  overflow : List Repo
  langCount : String → ℕ

/-- One iteration of the `for (const repo of scoredRepos)` loop in
`categorizeDiverseForSection`. -/
def walkStep (totalPromoted maxPerLang : ℕ) (st : WalkState) (repo : Repo) : WalkState :=
  if st.promoted.length < totalPromoted then
    let lang := langOf repo
    let count := st.langCount lang
    if count < maxPerLang then
      { promoted := st.promoted ++ [repo], overflow := st.overflow,
        langCount := fun l => if l = lang then count + 1 else st.langCount l }
    else
      { st with overflow := st.overflow ++ [repo] }
  else
    { st with overflow := st.overflow ++ [repo] }

/-- The full promotion walk. -/
def diversityWalk (scoredRepos : List Repo) (totalPromoted maxPerLang : ℕ) : WalkState :=
  scoredRepos.foldl (walkStep totalPromoted maxPerLang) ⟨[], [], fun _ => 0⟩

/-- The promoted/overflow split including the backfill pass: if the
diversity walk filled fewer than `totalPromoted` slots, refill from the
overflow in order (ignoring the cap) and recompute the overflow as every
candidate whose name was not promoted. -/
def allocate (scoredRepos : List Repo) (totalPromoted maxPerLang : ℕ) : List Repo × List Repo :=
  let st := diversityWalk scoredRepos totalPromoted maxPerLang
  if st.promoted.length < totalPromoted then
    let backfilled := st.promoted ++ st.overflow.take (totalPromoted - st.promoted.length)
    let names := backfilled.map (fun r => r.full_name)
    (backfilled, scoredRepos.filter fun r => !(names.contains r.full_name))
  else
    (st.promoted, st.overflow)

/-- Result shape of the allocator (`{ lead, secondary, quickHits }`). -/
structure CatResult where
  lead : Option Repo
  secondary : List Repo
  quickHits : List Repo
deriving DecidableEq

/-- `categorizeDiverseForSection` from src/github.js. -/
def categorizeDiverseForSection (scoredRepos : List Repo) (budget : Budget) : CatResult :=
  if scoredRepos.isEmpty then ⟨none, [], []⟩
  else
    let totalPromoted := 1 + budget.secondary
    let pr := allocate scoredRepos totalPromoted (maxPerLangOf scoredRepos totalPromoted)
    ⟨pr.1.head?, pr.1.drop 1, pr.2.take budget.quickHits⟩

/-- `categorizeDiverse`: the front-page instance of the allocator. -/
def categorizeDiverse (scoredRepos : List Repo) : CatResult :=
  categorizeDiverseForSection scoredRepos ⟨6, 10⟩

/-- The repositories promoted to lead or secondary by an allocation. -/
def promotedOf (c : CatResult) : List Repo :=
  c.lead.toList ++ c.secondary

/-- The number of candidates of language `lang` in a list. -/
def countLang (l : List Repo) (lang : String) : ℕ :=
  (l.filter fun r => langOf r = lang).length

/-! Section fetch orchestration (src/github.js). -/

/-- Stable insertion of a repo into a score-descending list: the repo passes
over strictly higher-scored entries and lands before the first entry whose
score is not larger (so equal-score entries keep their original order). -/
def insertByScoreDesc (x : Repo) : List Repo → List Repo
  | [] => [x]
  | y :: ys => if x.score < y.score then y :: insertByScoreDesc x ys else x :: y :: ys

/-- `repos.sort((a, b) => b._score - a._score)`: V8's stable sort with this
comparator produces the unique score-descending order that preserves the
original order of equal-score entries, computed here by stable insertion
sort. -/
def sortByScoreDesc : List Repo → List Repo
  | [] => []
  | x :: xs => insertByScoreDesc x (sortByScoreDesc xs)

/-- Attach `_score` to a repo (`{ ...repo, _score: scoreRepo(repo, opts) }`). -/
def attachScore (log1p : ℚ → ℚ) (options : ScoreOpts) (r : Repo) : Repo :=
  { r with score := scoreRepo log1p r options }

/-- Deduplication by `full_name`, first occurrence wins (the `seen` set
pattern used by `fetchTrending` and `fetchSectionRepos`). -/
def dedupAux (seen : List String) : List Repo → List Repo
  | [] => []
  | r :: rest =>
    if r.full_name ∈ seen then dedupAux seen rest
    else r :: dedupAux (r.full_name :: seen) rest

/-- Deduplicate a repo list by `full_name`, first occurrence wins. -/
def dedupByName (repos : List Repo) : List Repo :=
  dedupAux [] repos

/-- `fetchSectionRepos`: each configured topic/language query returns a page
of repos (a failed query contributes `[]`); the pages are concatenated and
deduplicated by full name.  The query construction itself (topic tags,
language filters, star floors, 3-day push window) is server-side and is
abstracted into the `queryResults` input. -/
def fetchSectionRepos (queryResults : List (List Repo)) : List Repo :=
  dedupByName queryResults.flatten

/-- The display-ready projection produced by `enrichRepo`. -/
structure EnrichedRepo where
  name : String := ""
  shortName : String := ""
  description : String := ""
  url : String := ""
  stars : ℕ := 0
  language : String := "Unknown"
  topics : List String := []
  forks : ℕ := 0
  openIssues : ℕ := 0
  createdAt : ℚ := 0
  pushedAt : ℚ := 0
  readmeExcerpt : String := ""
  releaseNotes : String := ""
  releaseName : Option String := none
deriving DecidableEq

/-- The oracles standing for the GitHub readme/release endpoints used by
enrichment: `readme` returns the base64-decoded readme content (the fetch
and decode are external), `release` the `/releases/latest` record; `none`
models a failed fetch (`.catch(() => null)`). -/
structure GhOracles where
  readme : String → Option String := fun _ => none
  release : String → Option Release := fun _ => none

/-- `enrichRepo` from src/github.js: project a repo into its display shape,
fetching the readme and (if not already attached) the latest release. -/
def enrichRepo (o : GhOracles) (repo : Repo) : EnrichedRepo :=
  let releaseData := repo._latestRelease.or (o.release repo.full_name)
  let readmeExcerpt :=
    match o.readme repo.full_name with
    | some content => jsSlice content 2000
    | none => ""
  let releaseNotes :=
    match releaseData with
    | some rel => jsSlice ((jsOrS rel.body none).getD "") 1500
    | none => ""
  { name := repo.full_name
    shortName := repo.name
    description := repo.description.getD ""
    url := repo.html_url
    stars := repo.stargazers_count
    language := langOf repo
    topics := repo.topics
    forks := repo.forks_count
    openIssues := repo.open_issues_count
    createdAt := repo.created_at
    pushedAt := repo.pushed_at
    readmeExcerpt := readmeExcerpt
    releaseNotes := releaseNotes
    releaseName := match releaseData with
      | some rel => jsOrS rel.tag_name rel.name
      | none => none }

/-- The lightweight quick-hit projection (`toQuickHit`). -/
structure QuickHit where
  name : String := ""
  shortName : String := ""
  description : String := ""
  url : String := ""
  stars : ℕ := 0
  language : String := "Unknown"
  topics : List String := []
deriving DecidableEq

/-- `toQuickHit` from src/github.js. -/
def toQuickHit (repo : Repo) : QuickHit :=
  { name := repo.full_name
    shortName := repo.name
    description := repo.description.getD ""
    url := repo.html_url
    stars := repo.stargazers_count
    language := langOf repo
    topics := repo.topics }

/-- Result of fetching and enriching one section (pre-generation). -/
structure SectionOut where
  lead : Option EnrichedRepo := none
  secondary : List EnrichedRepo := []
  quickHits : List QuickHit := []
deriving DecidableEq

/-- The filter–score–sort–allocate pipeline of `fetchAndEnrichSection`:
drop candidates whose names are already claimed, attach scores, sort
descending and run the diversity allocator. -/
def sectionAllocation (log1p : ℚ → ℚ) (queryResults : List (List Repo))
    (budget : Budget) (globalSeen : List String) (recentRepoNames : List String)
    (now : ℚ) : CatResult :=
  let repos := fetchSectionRepos queryResults
  let filtered := repos.filter fun r => !(globalSeen.contains r.full_name)
  let scoreOpts : ScoreOpts := ⟨now, recentRepoNames⟩
  let scored := sortByScoreDesc (filtered.map (attachScore log1p scoreOpts))
  categorizeDiverseForSection scored budget

/-- `fetchAndEnrichSection` from src/github.js: filter out globally claimed
names, score, sort, allocate, claim the promoted names into the shared set,
and enrich lead + secondary.  Returns the section result together with the
updated claimed-names set. -/
def fetchAndEnrichSection (o : GhOracles) (log1p : ℚ → ℚ)
    (queryResults : List (List Repo)) (budget : Budget)
    (globalSeen : List String) (recentRepoNames : List String) (now : ℚ) :
    SectionOut × List String :=
  let repos := fetchSectionRepos queryResults
  let filtered := repos.filter fun r => !(globalSeen.contains r.full_name)
  if filtered.isEmpty then (⟨none, [], []⟩, globalSeen)
  else
    let c := sectionAllocation log1p queryResults budget globalSeen recentRepoNames now
    let claimed := c.lead.toList ++ c.secondary
    let globalSeen' := globalSeen ++ claimed.map fun r => r.full_name
    match c.lead with
    | none => (⟨none, [], c.quickHits.map toQuickHit⟩, globalSeen')
    | some lead =>
      let enriched := (lead :: c.secondary).map (enrichRepo o)
      (⟨enriched.head?, enriched.drop 1, c.quickHits.map toQuickHit⟩, globalSeen')

/-- `fetchTrending` from src/github.js: two broad searches plus the
OSSInsight aggregator, deduplicated; score and sort everything, attach the
latest release to the top 15, re-score those and allocate with the
front-page budget.  `resultA`/`resultB`/`ossInsightRepos` are the pages the
three sources returned. -/
def fetchTrending (o : GhOracles) (log1p : ℚ → ℚ)
    (resultA resultB ossInsightRepos : List Repo)
    (recentRepoNames : List String) (now : ℚ) : CatResult :=
  let repos := dedupByName (resultA ++ resultB ++ ossInsightRepos)
  let scoreOpts : ScoreOpts := ⟨now, recentRepoNames⟩
  let preScored := sortByScoreDesc (repos.map (attachScore log1p scoreOpts))
  let top15 := preScored.take 15
  let withReleases := top15.map fun r => { r with _latestRelease := o.release r.full_name }
  let reScored := sortByScoreDesc (withReleases.map (attachScore log1p scoreOpts))
  categorizeDiverse reScored

/-- `fetchAndEnrich` from src/github.js: the front page.  Throws when no
lead was found (`"No repos found"`), otherwise enriches lead + secondary. -/
def fetchAndEnrich (o : GhOracles) (log1p : ℚ → ℚ)
    (resultA resultB ossInsightRepos : List Repo)
    (recentRepoNames : List String) (now : ℚ) : Except Unit SectionOut :=
  let c := fetchTrending o log1p resultA resultB ossInsightRepos recentRepoNames now
  match c.lead with
  | none => .error ()
  | some lead =>
    let enriched := (lead :: c.secondary).map (enrichRepo o)
    .ok ⟨enriched.head?, enriched.drop 1, c.quickHits.map toQuickHit⟩

/-! Section configuration (src/sections.js). -/

/-- A section's query configuration (`{ topics, languages }`). -/
structure SectionQuery where
  topics : List String := []
  languages : List String := []
deriving DecidableEq

/-- One entry of the `SECTIONS` table. -/
structure SectionConfig where
  id : String
  label : String
  budget : Budget
  query : Option SectionQuery := none
  isXPulse : Bool := false
deriving DecidableEq

/-- The `frontPage` entry of the `SECTIONS` table. -/
def frontPageSection : SectionConfig :=
  { id := "frontPage", label := "Front Page", budget := ⟨7, 10⟩ }

/-- The `ai` entry of the `SECTIONS` table. -/
def aiSection : SectionConfig :=
  { id := "ai", label := "AI", budget := ⟨3, 5⟩,
    query := some ⟨["ai", "machine-learning", "deep-learning", "llm", "gpt",
      "neural-network", "nlp", "computer-vision", "generative-ai", "transformers"],
      ["Jupyter Notebook"]⟩ }

/-- The `robotics` entry of the `SECTIONS` table. -/
def roboticsSection : SectionConfig :=
  { id := "robotics", label := "Robotics", budget := ⟨3, 5⟩,
    query := some ⟨["robotics", "robot", "ros", "autonomous", "drone",
      "embedded", "iot", "arduino", "sensor"], []⟩ }

/-- The `cyber` entry of the `SECTIONS` table. -/
def cyberSection : SectionConfig :=
  { id := "cyber", label := "Cyber", budget := ⟨3, 5⟩,
    query := some ⟨["security", "cybersecurity", "hacking", "pentest",
      "vulnerability", "exploit", "ctf", "malware", "encryption"], []⟩ }

/-- The `systems` entry of the `SECTIONS` table. -/
def systemsSection : SectionConfig :=
  { id := "systems", label := "Systems", budget := ⟨3, 5⟩,
    query := some ⟨[], ["Rust", "Go", "C", "C++", "Zig"]⟩ }

/-- The `diy` entry of the `SECTIONS` table. -/
def diySection : SectionConfig :=
  { id := "diy", label := "DIY", budget := ⟨3, 5⟩,
    query := some ⟨["diy", "maker", "hardware", "3d-printing",
      "home-automation", "self-hosted", "homelab", "raspberry-pi"], []⟩ }

/-- The `xPulse` entry of the `SECTIONS` table. -/
def xPulseSection : SectionConfig :=
  { id := "xPulse", label := "X Pulse", budget := ⟨0, 0⟩, isXPulse := true }

/-- The `SECTIONS` table from src/sections.js. -/
def SECTIONS : String → Option SectionConfig
  | "frontPage" => some frontPageSection
  | "ai" => some aiSection
  | "robotics" => some roboticsSection
  | "cyber" => some cyberSection
  | "systems" => some systemsSection
  | "diy" => some diySection
  | "xPulse" => some xPulseSection
  | _ => none

/-- `SECTION_ORDER` from src/sections.js. -/
def SECTION_ORDER : List String :=
  ["frontPage", "ai", "robotics", "cyber", "systems", "diy", "xPulse"]

/-- The sequential topic-section loop of `fetchAllSections`: skip the front
page and every config without a query, thread the claimed-names set through
the remaining sections in order.  `sectQ` gives each section's raw query
results. -/
def runTopicSections (o : GhOracles) (log1p : ℚ → ℚ)
    (sectQ : String → List (List Repo))
    (recentRepoNames : List String) (now : ℚ) :
    List String → List String → List (String × SectionOut) × List String
  | [], seen => ([], seen)
  | id :: rest, seen =>
    if id = "frontPage" then runTopicSections o log1p sectQ recentRepoNames now rest seen
    else
      match SECTIONS id with
      | none => runTopicSections o log1p sectQ recentRepoNames now rest seen
      | some config =>
        match config.query with
        | none => runTopicSections o log1p sectQ recentRepoNames now rest seen
        | some _ =>
          let step := fetchAndEnrichSection o log1p (sectQ id) config.budget seen
            recentRepoNames now
          let res := runTopicSections o log1p sectQ recentRepoNames now rest step.2
          ((id, step.1) :: res.1, res.2)

/-- `fetchAllSections` from src/github.js: front page first via
`fetchAndEnrich`, seed the claimed-names set with its lead + secondary
names, then run the topic sections sequentially in declared order. -/
def fetchAllSections (o : GhOracles) (log1p : ℚ → ℚ)
    (resultA resultB ossInsightRepos : List Repo)
    (sectQ : String → List (List Repo))
    (recentRepoNames : List String) (now : ℚ) :
    Except Unit (List (String × SectionOut)) :=
  match fetchAndEnrich o log1p resultA resultB ossInsightRepos recentRepoNames now with
  | .error e => .error e
  | .ok frontPageData =>
    let globalSeen :=
      (frontPageData.lead.toList.map fun r => r.name) ++
        (frontPageData.secondary.map fun r => r.name)
    let rest := runTopicSections o log1p sectQ recentRepoNames now SECTION_ORDER globalSeen
    .ok (("frontPage", frontPageData) :: rest.1)

/-- The full names promoted as lead or secondary in a fetched section. -/
def sectionPromotedNames (s : SectionOut) : List String :=
  (s.lead.toList.map fun r => r.name) ++ (s.secondary.map fun r => r.name)

/-! Article parsing (src/xai.js). -/

/-- The last capture group of `/(?:^|\n)\bHEADLINE:\s*(.+)/g`, trimmed,
empty collapsed to `none` (`headlineMatch?.[1]?.trim() || null`). -/
def headlineOptOf (text : String) : Option String :=
  lastGroupTrim (scanAnchored "HEADLINE:" text)

/-- The single match of `/BUILDERS_TAKE:\s*([\s\S]*?)$/g`: since `$` only
matches at the end of the input, the regex matches once, at the first
occurrence of the marker, and captures everything to the end. -/
def buildersTakeOf (cs : List Char) : String :=
  match (occurrencesOf ("BUILDERS_TAKE:".data) cs).head? with
  | some i => ⟨jsTrimList (cs.drop (i + "BUILDERS_TAKE:".length))⟩
  | none => ""

/-- The body span: from after the last `BODY:` marker (and the whitespace
the regex `/BODY:\s*/g` consumes) up to the last `BUILDERS_TAKE:` marker
(end of text if absent), when that span is non-empty; trimmed, with the
empty result collapsed to `none` (it is falsy at every use site). -/
def bodyOptOf (cs : List Char) : Option (List Char) :=
  match (occurrencesOf ("BODY:".data) cs).getLast? with
  | none => none
  | some i =>
    let afterMarker := i + "BODY:".length
    let ws := ((cs.drop afterMarker).takeWhile jsWS).length
    let lastBodyStart := afterMarker + ws
    let lastBtStart := ((occurrencesOf ("BUILDERS_TAKE:".data) cs).getLast?).getD cs.length
    if lastBodyStart < lastBtStart then
      let b := jsTrimList ((cs.drop lastBodyStart).take (lastBtStart - lastBodyStart))
      if b.isEmpty then none else some b
    else none

/-- The field record returned by `parseArticle`. -/
structure ParsedArticle where
  headline : String
  subheadline : String
  body : String
  buildersTake : String
  _isFallback : Bool
deriving DecidableEq

/-- `parseArticle` from src/xai.js: extract the marker fields (taking the
last regex match of each pattern), fall back per-field to repo-derived
text, and flag the article as fallback when headline or body is missing. -/
def parseArticle (text : String) (repo : Option EnrichedRepo) : ParsedArticle :=
  let cs := text.data
  let headline := headlineOptOf text
  let subheadline := (lastGroupTrim (scanMatches "SUBHEADLINE:" text)).getD ""
  let buildersTake := buildersTakeOf cs
  let body := bodyOptOf cs
  let failed := headline.isNone || body.isNone
  { headline :=
      match headline with
      | some h => h
      | none =>
        match repo with
        | some r => jsSlice (r.shortName ++ ": " ++ r.description) 80
        | none => "Untitled"
    subheadline :=
      if subheadline = "" then
        match repo with
        | some r => r.description
        | none => ""
      else subheadline
    body :=
      match body with
      | some b => (⟨b⟩ : String)
      | none =>
        match repo with
        | some r => r.description
        | none => text
    buildersTake := buildersTake
    _isFallback := failed }

/-- `line.replace(/^\d+\.\s*/, "")`: strip a leading ordinal. -/
def stripNumDot (l : String) : String :=
  let cs := l.data
  let ds := cs.takeWhile fun c => c.isDigit
  if ds.isEmpty then l
  else
    match cs.drop ds.length with
    | c :: rest => if c = '.' then ⟨rest.dropWhile jsWS⟩ else l
    | [] => l

/-- A quick-hit entry of the generated output: either an annotated
quick-hit (`{ ...repo, summary }` from `parseQuickHits`), a demoted
article's repo, or — in the empty-section short-circuit — an unannotated
quick-hit (`summary = none`). -/
structure QuickHitOut where
  name : String := ""
  shortName : String := ""
  description : String := ""
  url : String := ""
  stars : ℕ := 0
  language : String := "Unknown"
  topics : List String := []
  summary : Option String := none
deriving DecidableEq

/-- A raw quick-hit viewed as an output entry (no summary yet). -/
def ofQuickHit (q : QuickHit) : QuickHitOut :=
  { name := q.name, shortName := q.shortName, description := q.description,
    url := q.url, stars := q.stars, language := q.language, topics := q.topics }

/-- `{ ...article.repo, summary: article.repo.description }`: the quick-hit
a demoted fallback article turns into. -/
def demoteToQuickHit (r : EnrichedRepo) : QuickHitOut :=
  { name := r.name, shortName := r.shortName, description := r.description,
    url := r.url, stars := r.stars, language := r.language, topics := r.topics,
    summary := some r.description }

/-- `parseQuickHits` from src/xai.js: match each repo to the output line
with its ordinal number, falling back to the repo's description. -/
def parseQuickHits (text : String) (repos : List QuickHit) : List QuickHitOut :=
  let lines := (jsSplit "\n" text).filter fun l => jsTrim l ≠ ""
  repos.mapIdx fun i repo =>
    let line := lines.find? fun l => (toString (i + 1) ++ ".").data.isPrefixOf l.data
    let summary :=
      match line with
      | some l => jsTrim (stripNumDot l)
      | none => repo.description
    { ofQuickHit repo with summary := some summary }

/-! Article generation state machine (src/xai.js). -/

/-- Parsed X.com sentiment data (x-sentiment.js). -/
structure XSentiment where
  sentiment : String := "unknown"
  blurb : String := ""
  postCount : Int := 0
  topPost : Option String := none
  _failed : Bool := false
deriving DecidableEq

/-- A generated article with its repo attached. -/
structure Article where
  headline : String
  subheadline : String
  body : String
  buildersTake : String
  _isFallback : Bool
  repo : EnrichedRepo
  xSentiment : Option XSentiment := none
deriving DecidableEq

/-- `{ ...parseArticle(raw, repo), repo }`. -/
def articleOf (p : ParsedArticle) (repo : EnrichedRepo) : Article :=
  { headline := p.headline, subheadline := p.subheadline, body := p.body,
    buildersTake := p.buildersTake, _isFallback := p._isFallback, repo := repo }

/-- `generateArticleWithRetry` from src/xai.js, instrumented with the number
of backend (chat) calls it makes.  `backend n` is the text the LLM returns
for the n-th call for this repo (`.error` models a raised `BackendError`
after the collaborator's internal retries).  The initial attempt is parsed;
on parse failure one retry with the identical prompt is parsed; a raised
backend error anywhere yields the deterministic fallback
`parseArticle("", repo)`. -/
def generateArticleWithRetry (backend : ℕ → Except Unit String)
    (repo : EnrichedRepo) : Article × ℕ :=
  match backend 0 with
  | .error _ => (articleOf (parseArticle "" (some repo)) repo, 1)
  | .ok raw =>
    let article := articleOf (parseArticle raw (some repo)) repo
    if article._isFallback = false then (article, 1)
    else
      match backend 1 with
      | .error _ => (articleOf (parseArticle "" (some repo)) repo, 2)
      | .ok retryRaw => (articleOf (parseArticle retryRaw (some repo)) repo, 2)

/-- A trending topic of the X Pulse section (x-sentiment.js). -/
structure PulseItem where
  topic : String := ""
  blurb : String := ""
  sentiment : String := "neutral"
  handles : String := ""
deriving DecidableEq

/-- A generated section (`{ lead, secondary, quickHits, isEmpty }`, plus
the `isXPulse`/`pulseItems` fields the X Pulse section carries). -/
structure SectionContent where
  lead : Option Article := none
  secondary : List Article := []
  quickHits : List QuickHitOut := []
  isEmpty : Bool := true
  isXPulse : Bool := false
  pulseItems : List PulseItem := []
deriving DecidableEq

/-- The quick-hit generation step of `generateSectionContent`: when the
section has quick-hit candidates, one batched LLM call annotates them
(its failure propagates); otherwise the (empty) list passes through. -/
def sectionQuickHitsE (quickHitsBackend : Except Unit String)
    (quickHits : List QuickHit) : Except Unit (List QuickHitOut) :=
  if quickHits.isEmpty then .ok (quickHits.map ofQuickHit)
  else
    match quickHitsBackend with
    | .error e => .error e
    | .ok raw => .ok (parseQuickHits raw quickHits)

/-- The demote/promote post-processing of `generateSectionContent`: demote
every fallback secondary to a quick-hit; if the lead is a fallback and a
good secondary exists, promote the first good secondary to lead and demote
the original lead. -/
def routeSectionArticles (leadArticle : Article) (allSecondary : List Article)
    (quickHits0 : List QuickHitOut) : SectionContent :=
  let parts := allSecondary.partition fun a => a._isFallback
  let demotedToQuickHits := parts.1.map fun a => demoteToQuickHit a.repo
  let goodSecondary := parts.2
  if leadArticle._isFallback then
    match goodSecondary with
    | g :: gs =>
      { lead := some g, secondary := gs,
        quickHits := quickHits0 ++
          (demotedToQuickHits ++ [demoteToQuickHit leadArticle.repo]),
        isEmpty := false }
    | [] =>
      { lead := some leadArticle, secondary := [],
        quickHits := quickHits0 ++ demotedToQuickHits, isEmpty := false }
  else
    { lead := some leadArticle, secondary := goodSecondary,
      quickHits := quickHits0 ++ demotedToQuickHits, isEmpty := false }

/-- `generateSectionContent` from src/xai.js.  `artBackend r n` is the LLM
text of the n-th generation call for repo `r`; `quickHitsBackend` the LLM
text for the batched quick-hit prompt (its failure propagates, as in the
source).  The section config selects only which model and token budget the
LLM is called with, which the backend oracles absorb. -/
def generateSectionContent (sectionData : SectionOut) (sectionConfig : SectionConfig)
    (artBackend : EnrichedRepo → ℕ → Except Unit String)
    (quickHitsBackend : Except Unit String) : Except Unit SectionContent :=
  match sectionData.lead with
  | none =>
    .ok { lead := none, secondary := [],
          quickHits := sectionData.quickHits.map ofQuickHit, isEmpty := true }
  | some leadRepo =>
    let leadArticle := (generateArticleWithRetry (artBackend leadRepo) leadRepo).1
    let allSecondary := sectionData.secondary.map fun r =>
      (generateArticleWithRetry (artBackend r) r).1
    match sectionQuickHitsE quickHitsBackend sectionData.quickHits with
    | .error e => .error e
    | .ok quickHits0 => .ok (routeSectionArticles leadArticle allSecondary quickHits0)

/-- The articles generated for a list of repos (lead's secondaries). -/
def genArticles (artBackend : EnrichedRepo → ℕ → Except Unit String)
    (rs : List EnrichedRepo) : List Article :=
  rs.map fun r => (generateArticleWithRetry (artBackend r) r).1

/-- The quick-hits the fallback articles of a list are demoted to. -/
def demotedOf (l : List Article) : List QuickHitOut :=
  (l.filter fun a => a._isFallback).map fun a => demoteToQuickHit a.repo

/-! X sentiment and X Pulse (x-sentiment.js). -/

/-- `VALID_SENTIMENTS` from x-sentiment.js. -/
def VALID_SENTIMENTS : List String :=
  ["buzzing", "positive", "neutral", "mixed", "quiet", "unknown"]

/-- JS `String.prototype.toLowerCase`. -/
def jsToLower (s : String) : String :=
  ⟨s.data.map Char.toLower⟩

/-- JS `parseInt(s, 10)`: optional sign, leading decimal digits, `none` for
`NaN`. -/
def jsParseInt (s : String) : Option Int :=
  let cs := s.data.dropWhile jsWS
  let signDigits : Bool × List Char :=
    match cs with
    | c :: rest =>
      if c = '-' then (true, rest) else if c = '+' then (false, rest) else (false, cs)
    | [] => (false, [])
  let ds := signDigits.2.takeWhile fun c => c.isDigit
  if ds.isEmpty then none
  else
    let n : ℕ := ds.foldl (fun acc c => acc * 10 + (c.toNat - 48)) 0
    some (if signDigits.1 then -(n : Int) else (n : Int))

/-- `parseXSentiment` from x-sentiment.js. -/
def parseXSentiment (text : String) : XSentiment :=
  if jsTrim text = "" then ⟨"unknown", "", 0, none, true⟩
  else
    let sentiment0 :=
      match (scanMatches "SENTIMENT:" text).getLast? with
      | some g => let t := jsToLower (jsTrim g); if t = "" then "unknown" else t
      | none => "unknown"
    let sentiment := if VALID_SENTIMENTS.contains sentiment0 then sentiment0 else "unknown"
    let postCount :=
      match (scanMatches "POST_COUNT:" text).getLast? with
      | some g => (jsParseInt (jsTrim g)).getD 0
      | none => 0
    let blurb := (lastGroupTrim (scanMatches "BLURB:" text)).getD ""
    let topPost :=
      match lastGroupTrim (scanMatches "TOP_POST:" text) with
      | some t => if t = "none" then none else some t
      | none => none
    ⟨sentiment, blurb, postCount, topPost, false⟩

/-- `fetchXSentimentForRepo` from x-sentiment.js: parse the backend's
answer; a raised backend error yields the failed shape. -/
def fetchXSentimentForRepo (backend : Except Unit String) : XSentiment :=
  match backend with
  | .error _ => ⟨"unknown", "", 0, none, true⟩
  | .ok raw => parseXSentiment raw

/-- The block loop of `parseXPulse`: at most 8 items, skipping blocks
without a topic. -/
def parseXPulseAux : List String → List PulseItem → List PulseItem
  | [], items => items
  | block :: rest, items =>
    if 8 ≤ items.length then items
    else
      match lastGroupTrim (scanMatches "TOPIC:" block) with
      | none => parseXPulseAux rest items
      | some topic =>
        let sentiment0 :=
          match (scanMatches "SENTIMENT:" block).getLast? with
          | some g => let t := jsToLower (jsTrim g); if t = "" then "neutral" else t
          | none => "neutral"
        let sentiment := if VALID_SENTIMENTS.contains sentiment0 then sentiment0 else "neutral"
        let blurb := (lastGroupTrim (scanMatches "BLURB:" block)).getD ""
        let handles := (lastGroupTrim (scanMatches "HANDLES:" block)).getD ""
        parseXPulseAux rest (items ++ [⟨topic, blurb, sentiment, handles⟩])

/-- `parseXPulse` from x-sentiment.js: split on `---`, parse each block. -/
def parseXPulse (text : String) : List PulseItem :=
  if jsTrim text = "" then []
  else parseXPulseAux ((jsSplit "---" text).filter fun b => jsTrim b ≠ "") []

/-- `fetchXPulse` from x-sentiment.js: a raised backend error yields no
pulse items. -/
def fetchXPulse (backend : Except Unit String) : List PulseItem :=
  match backend with
  | .error _ => []
  | .ok raw => parseXPulse raw

/-! Whole-run content generation (`generateAllContent`). -/

/-- The per-section loop of `generateAllContent`: skip X Pulse sections, use
an empty shape for sections with no fetched data, otherwise generate.  A
missing `SECTIONS` entry would make the JS loop throw
(`SECTIONS[id].isXPulse` on `undefined`); the ids iterated are the concrete
`SECTION_ORDER`, which all resolve. -/
def genSectionsLoop (sections : String → Option SectionOut)
    (artBackend : EnrichedRepo → ℕ → Except Unit String)
    (quickHitsBackend : String → Except Unit String) :
    List String → Except Unit (List (String × SectionContent))
  | [] => .ok []
  | id :: rest =>
    match SECTIONS id with
    | none => .error ()
    | some config =>
      if config.isXPulse then genSectionsLoop sections artBackend quickHitsBackend rest
      else
        let scE : Except Unit SectionContent :=
          match sections id with
          | none => .ok { lead := none, secondary := [], quickHits := [], isEmpty := true }
          | some d => generateSectionContent d config artBackend (quickHitsBackend id)
        match scE with
        | .error e => .error e
        | .ok sc =>
          match genSectionsLoop sections artBackend quickHitsBackend rest with
          | .error e => .error e
          | .ok acc => .ok ((id, sc) :: acc)

/-- Attach the X.com sentiment annotation to an article. -/
def annotateArticle (sentBackend : EnrichedRepo → Except Unit String) (a : Article) : Article :=
  { a with xSentiment := some (fetchXSentimentForRepo (sentBackend a.repo)) }

/-- The sentiment-annotation pass of `generateAllContent`: non-empty
sections get their lead and secondary articles annotated in place. -/
def annotateSection (sentBackend : EnrichedRepo → Except Unit String)
    (sc : SectionContent) : SectionContent :=
  if sc.isEmpty then sc
  else
    { sc with lead := sc.lead.map (annotateArticle sentBackend),
              secondary := sc.secondary.map (annotateArticle sentBackend) }

/-- The `{ sections, tagline }` structure a run produces. -/
structure AllContent where
  sections : List (String × SectionContent) := []
  tagline : String := ""
deriving DecidableEq

/-- `generateAllContent` from src/xai.js: generate every ordinary section
in `SECTION_ORDER`, annotate with X sentiment, append the X Pulse section
(whose `isEmpty` reflects whether any pulse items parsed), and pick the
masthead quote (modelled as the `mastheadQuote` argument, since the
quotes.js pick is random). -/
def generateAllContent (sections : String → Option SectionOut)
    (artBackend : EnrichedRepo → ℕ → Except Unit String)
    (quickHitsBackend : String → Except Unit String)
    (sentBackend : EnrichedRepo → Except Unit String)
    (pulseBackend : Except Unit String)
    (mastheadQuote : String) : Except Unit AllContent :=
  match genSectionsLoop sections artBackend quickHitsBackend SECTION_ORDER with
  | .error e => .error e
  | .ok result0 =>
    let result1 := result0.map fun p => (p.1, annotateSection sentBackend p.2)
    let pulseItems := fetchXPulse pulseBackend
    let xPulseContent : SectionContent :=
      { lead := none, secondary := [], quickHits := [],
        isEmpty := pulseItems.isEmpty, isXPulse := true, pulseItems := pulseItems }
    .ok ⟨result1 ++ [("xPulse", xPulseContent)], mastheadQuote⟩

/-- The deterministic fallback article: `headline = "{shortName}:
{description}"` truncated to 80 characters, `body = description`,
`buildersTake = ""` — the value of `parseArticle("", repo)` with the repo
attached. -/
def fallbackArticleFor (repo : EnrichedRepo) : Article :=
  { headline := jsSlice (repo.shortName ++ ": " ++ repo.description) 80,
    subheadline := repo.description, body := repo.description,
    buildersTake := "", _isFallback := true, repo := repo }

/-! Concrete instances used by witnesses and counterexamples. -/

/-- A concrete enriched lead repo. -/
def erL : EnrichedRepo := { name := "o/lead", shortName := "lead", description := "dl" }

/-- A concrete enriched secondary repo. -/
def erS1 : EnrichedRepo := { name := "o/s1", shortName := "s1", description := "d1" }

/-- Another concrete enriched secondary repo. -/
def erS2 : EnrichedRepo := { name := "o/s2", shortName := "s2", description := "d2" }

/-- A well-formed LLM article answer. -/
def goodText : String := "HEADLINE: H\nBODY: B\nBUILDERS_TAKE: T"

/-- A backend on which only `o/s1` parses (everything else returns
marker-free junk). -/
def badLeadBackend : EnrichedRepo → ℕ → Except Unit String :=
  fun r _ => if r.name = "o/s1" then .ok goodText else .ok "junk"

/-- A backend on which `o/lead` and `o/s1` parse and `o/s2` does not. -/
def goodLeadBackend : EnrichedRepo → ℕ → Except Unit String :=
  fun r _ => if r.name = "o/lead" ∨ r.name = "o/s1" then .ok goodText else .ok "junk"

/-- A fetched section with a lead and one secondary. -/
def c4Data : SectionOut := { lead := some erL, secondary := [erS1] }

/-- A fetched section with a lead and two secondaries. -/
def c5Data : SectionOut := { lead := some erL, secondary := [erS1, erS2] }

/-- The generated content of `c4Data` under `badLeadBackend` (fallback lead,
one good secondary). -/
def c4Out : SectionContent :=
  ((generateSectionContent c4Data aiSection badLeadBackend (.ok "")).toOption).getD
    ⟨none, [], [], true, false, []⟩

/-- The generated content of `c5Data` under `goodLeadBackend` (good lead,
one good and one failed secondary). -/
def c5WitOut : SectionContent :=
  ((generateSectionContent c5Data aiSection goodLeadBackend (.ok "")).toOption).getD
    ⟨none, [], [], true, false, []⟩

/-- A whole-run output with no fetched section data and one parsed X Pulse
topic. -/
def c7CexOut : AllContent :=
  ((generateAllContent (fun _ => none) (fun _ _ => .error ()) (fun _ => .error ())
      (fun _ => .error ()) (.ok "TOPIC: Foo") "").toOption).getD ⟨[], ""⟩

/-- A whole-run output with no fetched section data and a failed X Pulse
fetch. -/
def c7WitOut : AllContent :=
  ((generateAllContent (fun _ => none) (fun _ _ => .error ()) (fun _ => .error ())
      (fun _ => .error ()) (.error ()) "").toOption).getD ⟨[], ""⟩

/-- A concrete raw repo for the front page. -/
def c1Repo : Repo := { full_name := "o/x", name := "x", language := some "Rust" }

/-- The orchestration output for a run whose front-page search returns just
`c1Repo` and whose topic-section queries return nothing. -/
def c1Out : List (String × SectionOut) :=
  ((fetchAllSections ⟨fun _ => none, fun _ => none⟩ (fun _ => 0) [c1Repo] [] []
      (fun _ => []) [] 0).toOption).getD []

/-- A language-diverse score-descending pool on which the diversity walk
fills all seven promoted slots. -/
def c2WitnessRepos : List Repo :=
  [{ full_name := "a/1", language := some "L1", score := 7 },
   { full_name := "a/2", language := some "L2", score := 6 },
   { full_name := "a/3", language := some "L3", score := 5 },
   { full_name := "a/4", language := some "L4", score := 4 },
   { full_name := "a/5", language := some "L5", score := 3 },
   { full_name := "a/6", language := some "L6", score := 2 },
   { full_name := "a/7", language := some "L7", score := 1 }]

/-- A score-descending pool spanning 4 languages where the cap (2) leaves
only five first-pass promotions, so the backfill promotes two more
language-"A" repos past the cap. -/
def c2CexRepos : List Repo :=
  [{ full_name := "a/1", language := some "A", score := 8 },
   { full_name := "a/2", language := some "A", score := 7 },
   { full_name := "a/3", language := some "A", score := 6 },
   { full_name := "a/4", language := some "A", score := 5 },
   { full_name := "a/5", language := some "A", score := 4 },
   { full_name := "a/6", language := some "B", score := 3 },
   { full_name := "a/7", language := some "C", score := 2 },
   { full_name := "a/8", language := some "D", score := 1 }]

/-- A candidate whose `pushed_at` lies 70 days after the scoring `now` of 0:
the recency term is then `1 + 10 = 11`, far above 1. -/
def c8CexRepo : Repo :=
  { full_name := "o/future", pushed_at := 6048000000 }

/-! General lemmas. -/

theorem head?_toList_drop {α : Type} (l : List α) : l.head?.toList ++ l.drop 1 = l := by
  cases l <;> simp

theorem countLang_append (l₁ l₂ : List Repo) (lang : String) :
    countLang (l₁ ++ l₂) lang = countLang l₁ lang + countLang l₂ lang := by
  simp [countLang, List.filter_append]

theorem countLang_singleton (r : Repo) (lang : String) :
    countLang [r] lang = if langOf r = lang then 1 else 0 := by
  simp only [countLang, List.filter]
  split <;> simp_all

/-! Lemmas about the diversity walk. -/

theorem walkStep_eq_promote (t c : ℕ) (st : WalkState) (r : Repo)
    (h1 : st.promoted.length < t) (h2 : st.langCount (langOf r) < c) :
    walkStep t c st r =
      { promoted := st.promoted ++ [r], overflow := st.overflow,
        langCount := fun l => if l = langOf r then st.langCount (langOf r) + 1
          else st.langCount l } := by
  simp only [walkStep]
  rw [if_pos h1, if_pos h2]

theorem walkStep_eq_capped (t c : ℕ) (st : WalkState) (r : Repo)
    (h1 : st.promoted.length < t) (h2 : ¬ st.langCount (langOf r) < c) :
    walkStep t c st r = { st with overflow := st.overflow ++ [r] } := by
  simp only [walkStep]
  rw [if_pos h1, if_neg h2]

theorem walkStep_eq_full (t c : ℕ) (st : WalkState) (r : Repo)
    (h1 : ¬ st.promoted.length < t) :
    walkStep t c st r = { st with overflow := st.overflow ++ [r] } := by
  simp only [walkStep]
  rw [if_neg h1]

theorem walkStep_promoted_cases (t c : ℕ) (st : WalkState) (r : Repo) :
    (walkStep t c st r).promoted = st.promoted ∨
      (walkStep t c st r).promoted = st.promoted ++ [r] := by
  by_cases h1 : st.promoted.length < t
  · by_cases h2 : st.langCount (langOf r) < c
    · rw [walkStep_eq_promote t c st r h1 h2]
      exact .inr rfl
    · rw [walkStep_eq_capped t c st r h1 h2]
      exact .inl rfl
  · rw [walkStep_eq_full t c st r h1]
    exact .inl rfl

theorem walkStep_overflow_cases (t c : ℕ) (st : WalkState) (r : Repo) :
    (walkStep t c st r).overflow = st.overflow ∨
      (walkStep t c st r).overflow = st.overflow ++ [r] := by
  by_cases h1 : st.promoted.length < t
  · by_cases h2 : st.langCount (langOf r) < c
    · rw [walkStep_eq_promote t c st r h1 h2]
      exact .inl rfl
    · rw [walkStep_eq_capped t c st r h1 h2]
      exact .inr rfl
  · rw [walkStep_eq_full t c st r h1]
    exact .inr rfl

theorem foldl_walk_mem (t c : ℕ) (l : List Repo) :
    ∀ (st : WalkState) (x : Repo),
      (x ∈ (l.foldl (walkStep t c) st).promoted → x ∈ st.promoted ∨ x ∈ l) ∧
      (x ∈ (l.foldl (walkStep t c) st).overflow → x ∈ st.overflow ∨ x ∈ l) := by
  induction l with
  | nil => intro st x; simp
  | cons r rest ih =>
    intro st x
    constructor
    · intro hx
      rcases (ih (walkStep t c st r) x).1 (by simpa using hx) with h | h
      · rcases walkStep_promoted_cases t c st r with he | he <;> rw [he] at h
        · exact .inl h
        · rcases List.mem_append.mp h with h | h
          · exact .inl h
          · simp at h; simp [h]
      · simp [h]
    · intro hx
      rcases (ih (walkStep t c st r) x).2 (by simpa using hx) with h | h
      · rcases walkStep_overflow_cases t c st r with he | he <;> rw [he] at h
        · exact .inl h
        · rcases List.mem_append.mp h with h | h
          · exact .inl h
          · simp at h; simp [h]
      · simp [h]

theorem diversityWalk_promoted_mem (l : List Repo) (t c : ℕ) (x : Repo)
    (hx : x ∈ (diversityWalk l t c).promoted) : x ∈ l := by
  rcases (foldl_walk_mem t c l ⟨[], [], fun _ => 0⟩ x).1 hx with h | h
  · simp at h
  · exact h

theorem diversityWalk_overflow_mem (l : List Repo) (t c : ℕ) (x : Repo)
    (hx : x ∈ (diversityWalk l t c).overflow) : x ∈ l := by
  rcases (foldl_walk_mem t c l ⟨[], [], fun _ => 0⟩ x).2 hx with h | h
  · simp at h
  · exact h

theorem allocate_promoted_mem (l : List Repo) (t c : ℕ) (x : Repo)
    (hx : x ∈ (allocate l t c).1) : x ∈ l := by
  simp only [allocate] at hx
  split_ifs at hx with h
  · simp only [List.mem_append] at hx
    rcases hx with hx | hx
    · exact diversityWalk_promoted_mem l t c x hx
    · exact diversityWalk_overflow_mem l t c x (List.mem_of_mem_take hx)
  · exact diversityWalk_promoted_mem l t c x hx

theorem promotedOf_categorize (l : List Repo) (b : Budget) (h : l.isEmpty = false) :
    promotedOf (categorizeDiverseForSection l b) =
      (allocate l (1 + b.secondary) (maxPerLangOf l (1 + b.secondary))).1 := by
  unfold categorizeDiverseForSection promotedOf
  rw [if_neg (by simp [h])]
  exact head?_toList_drop _

theorem categorize_promoted_mem (l : List Repo) (b : Budget) (x : Repo)
    (hx : x ∈ promotedOf (categorizeDiverseForSection l b)) : x ∈ l := by
  by_cases h : l.isEmpty
  · rw [List.isEmpty_iff] at h
    subst h
    simp [categorizeDiverseForSection, promotedOf] at hx
  · rw [promotedOf_categorize l b (by simpa using h)] at hx
    exact allocate_promoted_mem _ _ _ _ hx

/-! Lemmas for the language cap (claim C2). -/

theorem walkStep_langCount_inv (t c : ℕ) (st : WalkState) (r : Repo)
    (h1 : ∀ lang, countLang st.promoted lang = st.langCount lang)
    (h2 : ∀ lang, st.langCount lang ≤ c) :
    (∀ lang, countLang (walkStep t c st r).promoted lang = (walkStep t c st r).langCount lang) ∧
      (∀ lang, (walkStep t c st r).langCount lang ≤ c) := by
  by_cases hlen : st.promoted.length < t
  · by_cases hcount : st.langCount (langOf r) < c
    · rw [walkStep_eq_promote t c st r hlen hcount]
      constructor
      · intro lang
        rw [countLang_append, countLang_singleton]
        by_cases hl : lang = langOf r
        · subst hl
          simp [h1]
        · have hlr : ¬(langOf r = lang) := fun hc => hl hc.symm
          simp only [if_neg hlr, if_neg hl]
          simp [h1]
      · intro lang
        by_cases hl : lang = langOf r
        · simp only [if_pos hl]
          omega
        · simp only [if_neg hl]
          exact h2 lang
    · rw [walkStep_eq_capped t c st r hlen hcount]
      exact ⟨h1, h2⟩
  · rw [walkStep_eq_full t c st r hlen]
    exact ⟨h1, h2⟩

theorem foldl_walk_langCount (t c : ℕ) (l : List Repo) :
    ∀ (st : WalkState),
      (∀ lang, countLang st.promoted lang = st.langCount lang) →
      (∀ lang, st.langCount lang ≤ c) →
      (∀ lang, countLang (l.foldl (walkStep t c) st).promoted lang =
          (l.foldl (walkStep t c) st).langCount lang) ∧
        (∀ lang, (l.foldl (walkStep t c) st).langCount lang ≤ c) := by
  induction l with
  | nil => intro st h1 h2; exact ⟨h1, h2⟩
  | cons r rest ih =>
    intro st h1 h2
    have step := walkStep_langCount_inv t c st r h1 h2
    simpa using ih (walkStep t c st r) step.1 step.2

theorem diversityWalk_countLang_le (l : List Repo) (t c : ℕ) (lang : String) :
    countLang (diversityWalk l t c).promoted lang ≤ c := by
  have h := foldl_walk_langCount t c l ⟨[], [], fun _ => 0⟩
    (by intro lang; simp [countLang]) (by intro lang; simp)
  rw [diversityWalk] at *
  rw [h.1 lang]
  exact h.2 lang

/-! Lemmas for the allocator lead (claim C10). -/

theorem walkStep_head_preserved (t c : ℕ) (st : WalkState) (r : Repo)
    (h : st.promoted ≠ []) :
    (walkStep t c st r).promoted.head? = st.promoted.head? ∧
      (walkStep t c st r).promoted ≠ [] := by
  rcases walkStep_promoted_cases t c st r with he | he <;> rw [he]
  · exact ⟨rfl, h⟩
  · rw [List.head?_append]
    cases hp : st.promoted with
    | nil => exact absurd hp h
    | cons a as => simp

theorem foldl_walk_head (t c : ℕ) (l : List Repo) :
    ∀ (st : WalkState), st.promoted ≠ [] →
      (l.foldl (walkStep t c) st).promoted.head? = st.promoted.head? ∧
        (l.foldl (walkStep t c) st).promoted ≠ [] := by
  induction l with
  | nil => intro st h; exact ⟨rfl, h⟩
  | cons r rest ih =>
    intro st h
    have step := walkStep_head_preserved t c st r h
    have := ih (walkStep t c st r) step.2
    simp only [List.foldl_cons]
    exact ⟨this.1.trans step.1, this.2⟩

theorem walkStep_init (t c : ℕ) (r : Repo) (ov : List Repo)
    (ht : 0 < t) (hc : 0 < c) :
    (walkStep t c ⟨[], ov, fun _ => 0⟩ r).promoted = [r] := by
  unfold walkStep
  rw [if_pos (by simpa using ht), if_pos (by simpa using hc)]
  simp

theorem diversityWalk_head (r : Repo) (rest : List Repo) (t c : ℕ)
    (ht : 0 < t) (hc : 0 < c) :
    (diversityWalk (r :: rest) t c).promoted.head? = some r ∧
      (diversityWalk (r :: rest) t c).promoted ≠ [] := by
  unfold diversityWalk
  rw [List.foldl_cons]
  have hinit : (walkStep t c ⟨[], [], fun _ => 0⟩ r).promoted = [r] :=
    walkStep_init t c r [] ht hc
  have := foldl_walk_head t c rest (walkStep t c ⟨[], [], fun _ => 0⟩ r)
    (by rw [hinit]; simp)
  rw [hinit] at this
  exact this

theorem allocate_head (l : List Repo) (r : Repo) (rest : List Repo) (t c : ℕ)
    (hl : l = r :: rest) (ht : 0 < t) (hc : 0 < c) :
    (allocate l t c).1.head? = some r := by
  subst hl
  have hw := diversityWalk_head r rest t c ht hc
  simp only [allocate]
  split_ifs with h
  · rw [List.head?_append, hw.1]
    rfl
  · exact hw.1

/-! Claim C10: the diversity filter never displaces the top candidate. -/

/-- C10: for every non-empty score-descending candidate list and any
budget, the allocator's lead is exactly the first (highest-scored) element
of the input: the per-language cap is at least 2 and no language counter is
non-zero when the first candidate is considered, so it is always promoted
first. -/
theorem claim_C10_lead_is_top_candidate (scoredRepos : List Repo) (budget : Budget)
    (hne : scoredRepos ≠ [])
    (hsorted : scoredRepos.Pairwise fun a b => b.score ≤ a.score) :
    (categorizeDiverseForSection scoredRepos budget).lead = scoredRepos.head? := by
  cases scoredRepos with
  | nil => exact absurd rfl hne
  | cons r rest =>
    unfold categorizeDiverseForSection
    rw [if_neg (by simp)]
    simp only [List.head?_cons]
    exact allocate_head (r :: rest) r rest _ _ rfl (by omega)
      (lt_of_lt_of_le (by norm_num) (le_max_left 2 _))

/-- Witness for C10 at a concrete input. -/
theorem claim_C10_lead_is_top_candidate_witness :
    (categorizeDiverseForSection
        [{ full_name := "a/x", language := some "Rust", score := 1 },
         { full_name := "a/y", language := some "Go", score := 0 }] ⟨3, 5⟩).lead =
      some { full_name := "a/x", language := some "Rust", score := 1 } :=
  claim_C10_lead_is_top_candidate _ _ (by decide) (by decide)

/-! Claim C2: the diversity cap. -/

/-- C2 (amended): for a score-descending pool spanning at least 4 distinct
languages and `totalPromotedSlots = 7` (budget `secondary = 6`), the
allocator promotes at most `max(2, ceil(7 / distinctLangCountInTop15))`
candidates of any language, provided the diversity walk itself fills all 7
promoted slots; when it fills fewer, the backfill pass refills the
remaining slots ignoring the cap and may exceed it. -/
theorem claim_C2_diversity_cap (scoredRepos : List Repo) (budget : Budget)
    (hsorted : scoredRepos.Pairwise fun a b => b.score ≤ a.score)
    (hlangs : 4 ≤ (scoredRepos.map langOf).dedup.length)
    (hsec : budget.secondary = 6)
    (hfull : ¬(diversityWalk scoredRepos 7 (maxPerLangOf scoredRepos 7)).promoted.length < 7)
    (lang : String) :
    countLang (promotedOf (categorizeDiverseForSection scoredRepos budget)) lang ≤
      maxPerLangOf scoredRepos 7 := by
  have hne : scoredRepos.isEmpty = false := by
    cases scoredRepos with
    | nil => exact absurd (by decide) hfull
    | cons r rest => simp
  rw [promotedOf_categorize _ _ hne, hsec]
  have h7 : 1 + 6 = 7 := rfl
  rw [h7]
  simp only [allocate]
  rw [if_neg hfull]
  exact diversityWalk_countLang_le _ _ _ _

/-- Witness for C2 at a concrete input. -/
theorem claim_C2_diversity_cap_witness :
    countLang (promotedOf (categorizeDiverseForSection c2WitnessRepos ⟨6, 10⟩)) "L1" ≤
      maxPerLangOf c2WitnessRepos 7 :=
  claim_C2_diversity_cap c2WitnessRepos ⟨6, 10⟩ (by decide) (by decide) rfl (by decide) "L1"

/-- Counterexample to C2 as stated: `c2CexRepos` is score-descending, spans
4 distinct languages, yet with budget `{secondary: 6}` the allocator
promotes 4 language-"A" candidates while the cap is
`max(2, ceil(7/4)) = 2` — the backfill step refills slots ignoring the
cap. -/
theorem claim_C2_diversity_cap_counterexample :
    (c2CexRepos.Pairwise fun a b => b.score ≤ a.score) ∧
      4 ≤ (c2CexRepos.map langOf).dedup.length ∧
      maxPerLangOf c2CexRepos 7 = 2 ∧
      countLang (promotedOf (categorizeDiverseForSection c2CexRepos ⟨6, 10⟩)) "A" = 4 := by
  decide

/-! Claim C9: the history penalty. -/

/-- C9: scoring a candidate with a history-penalty set containing its full
name yields exactly 0.5 less than scoring it with the empty set, all other
inputs equal; in particular the gap is at least 0.4. -/
theorem claim_C9_history_penalty (log1p : ℚ → ℚ) (repo : Repo) (now : ℚ)
    (recentRepoNames : List String) (h : repo.full_name ∈ recentRepoNames) :
    scoreRepo log1p repo ⟨now, recentRepoNames⟩ = scoreRepo log1p repo ⟨now, []⟩ - 1/2 ∧
      scoreRepo log1p repo ⟨now, recentRepoNames⟩ ≤ scoreRepo log1p repo ⟨now, []⟩ - 2/5 := by
  have key : scoreRepo log1p repo ⟨now, recentRepoNames⟩ =
      scoreRepo log1p repo ⟨now, []⟩ - 1/2 := by
    simp only [scoreRepo]
    rw [if_pos h, if_neg (List.not_mem_nil _)]
  exact ⟨key, by rw [key]; linarith⟩

/-- Witness for C9 at a concrete input. -/
theorem claim_C9_history_penalty_witness :
    scoreRepo (fun _ => 0) { full_name := "o/r" } ⟨0, ["o/r"]⟩ =
        scoreRepo (fun _ => 0) { full_name := "o/r" } ⟨0, []⟩ - 1/2 ∧
      scoreRepo (fun _ => 0) { full_name := "o/r" } ⟨0, ["o/r"]⟩ ≤
        scoreRepo (fun _ => 0) { full_name := "o/r" } ⟨0, []⟩ - 2/5 :=
  claim_C9_history_penalty (fun _ => 0) { full_name := "o/r" } 0 ["o/r"] (by decide)

/-! Claim C8: score boundedness. -/

/-- C8 (amended): for any candidate with stars up to 10,000,000 whose
push timestamp and release date do not lie in the future of `now`, and any
history-penalty set, the score lies in `[-0.5, 1.0]` (given that `log1p`
is nonnegative on nonnegative inputs).  Without the timestamp hypotheses
the recency and release terms are not clamped above and the score can
exceed 1. -/
theorem claim_C8_score_bounded (log1p : ℚ → ℚ) (repo : Repo) (now : ℚ)
    (recentRepoNames : List String)
    (hlog : ∀ x : ℚ, 0 ≤ x → 0 ≤ log1p x)
    (hstars : repo.stargazers_count ≤ 10000000)
    (hpush : repo.pushed_at ≤ now)
    (hrel : ∀ rel ∈ repo._latestRelease, ∀ d ∈ rel.published_at.or rel.created_at, d ≤ now) :
    -(1/2) ≤ scoreRepo log1p repo ⟨now, recentRepoNames⟩ ∧
      scoreRepo log1p repo ⟨now, recentRepoNames⟩ ≤ 1 := by
  have hv : 0 ≤ velocityScoreOf log1p now repo ∧ velocityScoreOf log1p now repo ≤ 1 := by
    unfold velocityScoreOf
    constructor
    · refine le_min (div_nonneg (hlog _ ?_) (by norm_num)) zero_le_one
      exact div_nonneg (Nat.cast_nonneg _) (le_trans zero_le_one (le_max_right _ _))
    · exact min_le_right _ _
  have hr : 0 ≤ recencyScoreOf now repo ∧ recencyScoreOf now repo ≤ 1 := by
    unfold recencyScoreOf
    constructor
    · exact le_max_left _ _
    · refine max_le zero_le_one ?_
      have : (0:ℚ) ≤ (now - repo.pushed_at) / (7 * 86400000) :=
        div_nonneg (sub_nonneg.mpr hpush) (by norm_num)
      linarith
  have hrl : 0 ≤ releaseScoreOf now repo ∧ releaseScoreOf now repo ≤ 1 := by
    rcases hLR : repo._latestRelease with - | rel
    · unfold releaseScoreOf
      simp [hLR]
    · rcases hD : rel.published_at.or rel.created_at with - | d
      · unfold releaseScoreOf
        simp only [hLR, hD]
        norm_num
      · have hd : d ≤ now := hrel rel (by simp [hLR]) d (by simp [hD])
        unfold releaseScoreOf
        simp only [hLR, hD]
        constructor
        · exact le_max_left _ _
        · refine max_le zero_le_one ?_
          have h30 : (0:ℚ) ≤ (now - d) / 86400000 / 30 :=
            div_nonneg (div_nonneg (sub_nonneg.mpr hd) (by norm_num)) (by norm_num)
          linarith
  have he : 0 ≤ engagementScoreOf repo ∧ engagementScoreOf repo ≤ 1 := by
    simp only [engagementScoreOf]
    split_ifs with hst
    · constructor
      · refine le_min (div_nonneg ?_ (le_of_lt hst)) zero_le_one
        positivity
      · exact min_le_right _ _
    · norm_num
  simp only [scoreRepo]
  by_cases hOSS : repo._isOSSInsight
  · simp only [hOSS, if_true]
    split_ifs with hmem <;>
      constructor <;>
      linarith [hv.1, hv.2, hr.1, hr.2, hrl.1, hrl.2, he.1, he.2]
  · simp only [hOSS, if_false]
    split_ifs with hmem <;>
      constructor <;>
      linarith [hv.1, hv.2, hr.1, hr.2, hrl.1, hrl.2, he.1, he.2]

/-- Witness for C8 at a concrete input. -/
theorem claim_C8_score_bounded_witness :
    -(1/2) ≤ scoreRepo (fun _ => 0) { full_name := "o/r" } ⟨0, []⟩ ∧
      scoreRepo (fun _ => 0) { full_name := "o/r" } ⟨0, []⟩ ≤ 1 :=
  claim_C8_score_bounded (fun _ => 0) { full_name := "o/r" } 0 []
    (fun _ hx => le_refl 0) (by decide) (le_refl 0) (by simp)

/-- Counterexample to C8 as stated ("any now"): with `now` 70 days before
the candidate's last push, the recency term is 11 and the score is
`11 * 0.25 = 2.75 > 1`; the abstract `log1p` is instantiated with the
constant-zero function, which is nonnegative on nonnegative inputs (and
agrees with the real `log1p` at the only point it is applied, 0). -/
theorem claim_C8_score_bounded_counterexample :
    (∀ x : ℚ, 0 ≤ x → 0 ≤ (fun _ : ℚ => (0:ℚ)) x) ∧
      scoreRepo (fun _ => 0) c8CexRepo ⟨0, []⟩ = 11/4 ∧
      ¬ scoreRepo (fun _ => 0) c8CexRepo ⟨0, []⟩ ≤ 1 := by
  have hval : scoreRepo (fun _ => 0) c8CexRepo ⟨0, []⟩ = 11/4 := by
    norm_num [scoreRepo, velocityScoreOf, recencyScoreOf, releaseScoreOf,
      engagementScoreOf, c8CexRepo, max_def, min_def]
  refine ⟨fun _ _ => le_refl 0, hval, ?_⟩
  rw [hval]
  norm_num

/-! Lemmas about the regex scanners on marker-free text. -/

theorem isPrefixOf_nil_eq_false {pat : List Char} (hp : pat ≠ []) :
    pat.isPrefixOf ([] : List Char) = false := by
  cases pat with
  | nil => exact absurd rfl hp
  | cons a as => rfl

theorem occurrencesOf_forall (pat s : List Char) (hp : pat ≠ [])
    (h : occurrencesOf pat s = []) : ∀ i, ¬ pat.isPrefixOf (s.drop i) = true := by
  intro i hpre
  by_cases hi : i < s.length + 1
  · have hmem : i ∈ (List.range (s.length + 1)).filter fun j => pat.isPrefixOf (s.drop j) := by
      rw [List.mem_filter]
      exact ⟨List.mem_range.mpr hi, hpre⟩
    rw [show ((List.range (s.length + 1)).filter fun j => pat.isPrefixOf (s.drop j)) = []
      from h] at hmem
    exact absurd hmem (List.not_mem_nil _)
  · have hlen : s.length ≤ i := by omega
    rw [List.drop_eq_nil_of_le hlen, isPrefixOf_nil_eq_false hp] at hpre
    exact Bool.noConfusion hpre

theorem tryMatchAt_eq_none (pat s : List Char) (h : ¬ pat.isPrefixOf s = true) :
    tryMatchAt pat s = none := by
  unfold tryMatchAt
  rw [if_neg h]

theorem scanAux_succ (marker : List Char) (fuel : ℕ) (s : List Char) :
    scanAux marker (fuel + 1) s =
      match tryMatchAt marker s with
      | some (g, rest) => g :: scanAux marker fuel rest
      | none =>
        match s with
        | [] => []
        | _ :: t => scanAux marker fuel t := rfl

theorem scanAux_eq_nil (pat : List Char) :
    ∀ fuel s, (∀ i, ¬ pat.isPrefixOf (s.drop i) = true) → scanAux pat fuel s = [] := by
  intro fuel
  induction fuel with
  | zero => intro s _; rfl
  | succ n ih =>
    intro s h
    have htm : tryMatchAt pat s = none := tryMatchAt_eq_none pat s (by simpa using h 0)
    rw [scanAux_succ]
    simp only [htm]
    cases s with
    | nil => rfl
    | cons c t => exact ih t fun i => by simpa using h (i + 1)

theorem scanAnchoredAux_succ (marker : List Char) (fuel : ℕ) (b : Bool) (s : List Char) :
    scanAnchoredAux marker (fuel + 1) b s =
      match (if b then tryMatchAt marker s else none) with
      | some (g, rest) => g :: scanAnchoredAux marker fuel false rest
      | none =>
        match s with
        | [] => []
        | c :: t =>
          if c = '\n' then
            match tryMatchAt marker t with
            | some (g, rest) => g :: scanAnchoredAux marker fuel false rest
            | none => scanAnchoredAux marker fuel false t
          else scanAnchoredAux marker fuel false t := rfl

theorem scanAnchoredAux_eq_nil (pat : List Char) :
    ∀ fuel b s, (∀ i, ¬ pat.isPrefixOf (s.drop i) = true) →
      scanAnchoredAux pat fuel b s = [] := by
  intro fuel
  induction fuel with
  | zero => intro b s _; rfl
  | succ n ih =>
    intro b s h
    have htm : tryMatchAt pat s = none := tryMatchAt_eq_none pat s (by simpa using h 0)
    have hif : (if b then tryMatchAt pat s else none) = none := by
      cases b <;> simp [htm]
    rw [scanAnchoredAux_succ]
    simp only [hif]
    cases s with
    | nil => rfl
    | cons c t =>
      have ht : ∀ i, ¬ pat.isPrefixOf (t.drop i) = true := fun i => by simpa using h (i + 1)
      have htm2 : tryMatchAt pat t = none := tryMatchAt_eq_none pat t (by simpa using ht 0)
      by_cases hc : c = '\n'
      · simp only [if_pos hc, htm2]
        exact ih false t ht
      · simp only [if_neg hc]
        exact ih false t ht

theorem parseArticle_empty (repo : EnrichedRepo) :
    parseArticle "" (some repo) =
      ⟨jsSlice (repo.shortName ++ ": " ++ repo.description) 80, repo.description,
        repo.description, "", true⟩ := by
  rfl

theorem articleOf_empty (repo : EnrichedRepo) :
    articleOf (parseArticle "" (some repo)) repo = fallbackArticleFor repo := by
  rw [parseArticle_empty]
  rfl

theorem parseArticle_of_no_markers (text : String) (repo : EnrichedRepo)
    (hH : occurrencesOf ("HEADLINE:".data) text.data = [])
    (hS : occurrencesOf ("SUBHEADLINE:".data) text.data = [])
    (hB : occurrencesOf ("BODY:".data) text.data = [])
    (hT : occurrencesOf ("BUILDERS_TAKE:".data) text.data = []) :
    parseArticle text (some repo) = parseArticle "" (some repo) := by
  have h1 : headlineOptOf text = none := by
    unfold headlineOptOf scanAnchored
    rw [scanAnchoredAux_eq_nil _ _ _ _ (occurrencesOf_forall _ _ (by decide) hH)]
    rfl
  have h2 : lastGroupTrim (scanMatches "SUBHEADLINE:" text) = none := by
    unfold scanMatches
    rw [scanAux_eq_nil _ _ _ (occurrencesOf_forall _ _ (by decide) hS)]
    rfl
  have h3 : bodyOptOf text.data = none := by
    unfold bodyOptOf
    rw [hB]
    rfl
  have h4 : buildersTakeOf text.data = "" := by
    unfold buildersTakeOf
    rw [hT]
    rfl
  rw [parseArticle_empty]
  simp only [parseArticle, h1, h2, h3, h4]
  rfl

/-! Claim C6: last-occurrence parsing. -/

/-- C6 (the code contradicts its own "use LAST occurrence of each marker"
contract): the regression example parses correctly — `headline = "bar"`,
not a match inside "SUBHEADLINE:" — but with two `BUILDERS_TAKE:` markers
the parser returns everything after the FIRST one, because the regex
`/BUILDERS_TAKE:\s*([\s\S]*?)$/g` is anchored at the end of input and so
matches exactly once, at the first marker. -/
theorem claim_C6_last_occurrence :
    (parseArticle "SUBHEADLINE: foo\nHEADLINE: bar" none).headline = "bar" ∧
      (parseArticle "HEADLINE: H\nBODY: B\nBUILDERS_TAKE: a\nBUILDERS_TAKE: b" none).body =
        "B\nBUILDERS_TAKE: a" ∧
      (parseArticle "HEADLINE: H\nBODY: B\nBUILDERS_TAKE: a\nBUILDERS_TAKE: b" none).buildersTake =
        "a\nBUILDERS_TAKE: b" ∧
      ¬ (parseArticle "HEADLINE: H\nBODY: B\nBUILDERS_TAKE: a\nBUILDERS_TAKE: b" none).buildersTake
          = "b" := by
  decide

/-! Claim C3: article generation totality and fallback. -/

/-- C3 (amended): `generateArticleWithRetry` never fails outward — for
every backend and repo it returns an article with the repo attached, in at
most two backend calls.  When both the initial attempt and the retry return
unparseable text it makes exactly two calls and returns the parse of the
retry text with `_isFallback = true` and the repo attached; the full
deterministic fallback shape (`headline = "{shortName}: {description}"`
truncated to 80 characters, `body = description`, `buildersTake = ""`) is
guaranteed when the retry text contains none of the field markers, and
whenever the backend itself raises; with partially parseable text,
individually parsed fields are kept. -/
theorem claim_C3_generate_article_totality :
    (∀ (backend : ℕ → Except Unit String) (repo : EnrichedRepo),
        ((generateArticleWithRetry backend repo).1).repo = repo ∧
          (generateArticleWithRetry backend repo).2 ≤ 2) ∧
      (∀ (backend : ℕ → Except Unit String) (repo : EnrichedRepo) (t0 t1 : String),
        backend 0 = .ok t0 → (parseArticle t0 (some repo))._isFallback = true →
        backend 1 = .ok t1 → (parseArticle t1 (some repo))._isFallback = true →
        (generateArticleWithRetry backend repo).2 = 2 ∧
          ((generateArticleWithRetry backend repo).1)._isFallback = true ∧
          (generateArticleWithRetry backend repo).1 =
            articleOf (parseArticle t1 (some repo)) repo) ∧
      (∀ (backend : ℕ → Except Unit String) (repo : EnrichedRepo) (t0 t1 : String),
        backend 0 = .ok t0 → (parseArticle t0 (some repo))._isFallback = true →
        backend 1 = .ok t1 →
        occurrencesOf ("HEADLINE:".data) t1.data = [] →
        occurrencesOf ("SUBHEADLINE:".data) t1.data = [] →
        occurrencesOf ("BODY:".data) t1.data = [] →
        occurrencesOf ("BUILDERS_TAKE:".data) t1.data = [] →
        generateArticleWithRetry backend repo = (fallbackArticleFor repo, 2)) ∧
      (∀ (backend : ℕ → Except Unit String) (repo : EnrichedRepo),
        (backend 0 = .error () →
          generateArticleWithRetry backend repo = (fallbackArticleFor repo, 1)) ∧
        (∀ t0, backend 0 = .ok t0 → (parseArticle t0 (some repo))._isFallback = true →
          backend 1 = .error () →
          generateArticleWithRetry backend repo = (fallbackArticleFor repo, 2))) := by
  have hfb : ∀ (t : String) (repo : EnrichedRepo),
      (parseArticle t (some repo))._isFallback = true →
      ¬ ((articleOf (parseArticle t (some repo)) repo)._isFallback = false) := by
    intro t repo h
    simp [articleOf, h]
  refine ⟨?_, ?_, ?_, ?_⟩
  · intro backend repo
    unfold generateArticleWithRetry
    rcases backend 0 with - | t0
    · exact ⟨rfl, Nat.le_succ 1⟩
    · simp only []
      split_ifs with h
      · exact ⟨rfl, Nat.le_succ 1⟩
      · rcases backend 1 with - | t1
        · exact ⟨rfl, Nat.le_refl 2⟩
        · exact ⟨rfl, Nat.le_refl 2⟩
  · intro backend repo t0 t1 h0 hf0 h1 hf1
    unfold generateArticleWithRetry
    rw [h0]
    simp only []
    rw [if_neg (hfb t0 repo hf0), h1]
    exact ⟨rfl, hf1, rfl⟩
  · intro backend repo t0 t1 h0 hf0 h1 hH hS hB hT
    have hno := parseArticle_of_no_markers t1 repo hH hS hB hT
    have hf1 : (parseArticle t1 (some repo))._isFallback = true := by
      rw [hno, parseArticle_empty]
    unfold generateArticleWithRetry
    rw [h0]
    simp only []
    rw [if_neg (hfb t0 repo hf0), h1]
    show (articleOf (parseArticle t1 (some repo)) repo, 2) = (fallbackArticleFor repo, 2)
    rw [hno, articleOf_empty]
  · intro backend repo
    constructor
    · intro h0
      unfold generateArticleWithRetry
      rw [h0]
      show (articleOf (parseArticle "" (some repo)) repo, 1) = (fallbackArticleFor repo, 1)
      rw [articleOf_empty]
    · intro t0 h0 hf0 h1
      unfold generateArticleWithRetry
      rw [h0]
      simp only []
      rw [if_neg (hfb t0 repo hf0), h1]
      show (articleOf (parseArticle "" (some repo)) repo, 2) = (fallbackArticleFor repo, 2)
      rw [articleOf_empty]

/-- Witness for C3 at a concrete input: a backend stub that answers
marker-free junk twice is called exactly twice and yields a fallback. -/
theorem claim_C3_generate_article_totality_witness :
    (generateArticleWithRetry (fun _ => .ok "junk") erL).2 = 2 ∧
      ((generateArticleWithRetry (fun _ => .ok "junk") erL).1)._isFallback = true ∧
      (generateArticleWithRetry (fun _ => .ok "junk") erL).1 =
        articleOf (parseArticle "junk" (some erL)) erL :=
  claim_C3_generate_article_totality.2.1 (fun _ => .ok "junk") erL "junk" "junk" rfl
    (by decide) rfl (by decide)

/-- Counterexample to C3 as stated: a backend returning the unparseable
text `"HEADLINE: Hi"` (headline but no body) twice yields a fallback
article after two calls, but its headline is the parsed `"Hi"`, not the
claimed `"{shortName}: {description}"` truncation. -/
theorem claim_C3_generate_article_totality_counterexample :
    (parseArticle "HEADLINE: Hi" (some erL))._isFallback = true ∧
      (generateArticleWithRetry (fun _ => .ok "HEADLINE: Hi") erL).2 = 2 ∧
      ((generateArticleWithRetry (fun _ => .ok "HEADLINE: Hi") erL).1).headline = "Hi" ∧
      ¬ ((generateArticleWithRetry (fun _ => .ok "HEADLINE: Hi") erL).1).headline =
          jsSlice (erL.shortName ++ ": " ++ erL.description) 80 := by
  decide

/-! Lemmas about section content generation. -/

theorem genArticle_repo (backend : ℕ → Except Unit String) (repo : EnrichedRepo) :
    ((generateArticleWithRetry backend repo).1).repo = repo := by
  unfold generateArticleWithRetry
  rcases backend 0 with - | t0
  · rfl
  · simp only []
    split_ifs with h
    · rfl
    · rcases backend 1 with - | t1
      · rfl
      · rfl

theorem partition_fst_filter (l : List Article) :
    (l.partition fun a => a._isFallback).1 = l.filter fun a => a._isFallback := by
  rw [List.partition_eq_filter_filter]

theorem partition_snd_filter (l : List Article) :
    (l.partition fun a => a._isFallback).2 = l.filter fun a => !a._isFallback := by
  rw [List.partition_eq_filter_filter]
  rfl

theorem route_promote (la : Article) (sec : List Article) (qh0 : List QuickHitOut)
    (g : Article) (gs : List Article)
    (hfb : la._isFallback = true)
    (hgs : sec.filter (fun a => !a._isFallback) = g :: gs) :
    routeSectionArticles la sec qh0 =
      { lead := some g, secondary := gs,
        quickHits := qh0 ++ (demotedOf sec ++ [demoteToQuickHit la.repo]),
        isEmpty := false } := by
  simp only [routeSectionArticles, partition_fst_filter, partition_snd_filter, hfb,
    if_true, hgs]
  rfl

theorem route_keep (la : Article) (sec : List Article) (qh0 : List QuickHitOut)
    (hfb : la._isFallback = true)
    (hgs : sec.filter (fun a => !a._isFallback) = []) :
    routeSectionArticles la sec qh0 =
      { lead := some la, secondary := [],
        quickHits := qh0 ++ demotedOf sec, isEmpty := false } := by
  simp only [routeSectionArticles, partition_fst_filter, partition_snd_filter, hfb,
    if_true, hgs]
  rfl

theorem route_good (la : Article) (sec : List Article) (qh0 : List QuickHitOut)
    (hfb : la._isFallback = false) :
    routeSectionArticles la sec qh0 =
      { lead := some la, secondary := sec.filter fun a => !a._isFallback,
        quickHits := qh0 ++ demotedOf sec, isEmpty := false } := by
  simp only [routeSectionArticles, partition_fst_filter, partition_snd_filter, hfb]
  rfl

theorem routeSectionArticles_fields (la : Article) (sec : List Article)
    (qh0 : List QuickHitOut) :
    (routeSectionArticles la sec qh0).isEmpty = false ∧
      (routeSectionArticles la sec qh0).lead ≠ none ∧
      (routeSectionArticles la sec qh0).isXPulse = false := by
  by_cases hfb : la._isFallback = true
  · rcases hgs : sec.filter (fun a => !a._isFallback) with - | ⟨g, gs⟩
    · rw [route_keep la sec qh0 hfb hgs]
      simp
    · rw [route_promote la sec qh0 g gs hfb hgs]
      simp
  · have hfb' : la._isFallback = false := by simpa using hfb
    rw [route_good la sec qh0 hfb']
    simp

theorem generateSectionContent_ok_elim (data : SectionOut) (cfg : SectionConfig)
    (artB : EnrichedRepo → ℕ → Except Unit String) (qhB : Except Unit String)
    (L : EnrichedRepo) (out : SectionContent)
    (hL : data.lead = some L)
    (hok : generateSectionContent data cfg artB qhB = .ok out) :
    ∃ qh0, out = routeSectionArticles ((generateArticleWithRetry (artB L) L).1)
      (genArticles artB data.secondary) qh0 := by
  simp only [generateSectionContent, hL] at hok
  rcases hqh : sectionQuickHitsE qhB data.quickHits with e | qh0
  · rw [hqh] at hok
    exact absurd hok (by simp)
  · rw [hqh] at hok
    simp only [Except.ok.injEq] at hok
    exact ⟨qh0, hok.symm⟩

theorem mem_filter_not_fallback (l : List Article) (a : Article)
    (ha : a ∈ l.filter fun x => !x._isFallback) : a._isFallback = false := by
  have := (List.mem_filter.mp ha).2
  simpa using this

theorem mem_demotedOf (artB : EnrichedRepo → ℕ → Except Unit String)
    (rs : List EnrichedRepo) (r : EnrichedRepo) (hr : r ∈ rs)
    (hfb : ((generateArticleWithRetry (artB r) r).1)._isFallback = true) :
    demoteToQuickHit r ∈ demotedOf (genArticles artB rs) := by
  unfold demotedOf genArticles
  refine List.mem_map.mpr ⟨(generateArticleWithRetry (artB r) r).1, ?_, ?_⟩
  · exact List.mem_filter.mpr ⟨List.mem_map.mpr ⟨r, hr, rfl⟩, by simp [hfb]⟩
  · rw [genArticle_repo]

/-! Claim C4: promotion of a good secondary over a fallback lead. -/

/-- C4: when the generated lead article is a fallback and at least one
non-fallback secondary article exists, the returned section's lead is the
first such non-fallback secondary (same headline), and the original
fallback lead's repo appears in the returned quick-hits with summary equal
to its description; with no non-fallback secondary, the fallback lead is
kept. -/
theorem claim_C4_promotion (data : SectionOut) (cfg : SectionConfig)
    (artB : EnrichedRepo → ℕ → Except Unit String) (qhB : Except Unit String)
    (L : EnrichedRepo) (out : SectionContent)
    (hL : data.lead = some L)
    (hok : generateSectionContent data cfg artB qhB = .ok out)
    (hfb : ((generateArticleWithRetry (artB L) L).1)._isFallback = true) :
    (∀ g gs, (genArticles artB data.secondary).filter (fun a => !a._isFallback) = g :: gs →
      out.lead = some g ∧ (out.lead.map fun a => a.headline) = some g.headline ∧
        demoteToQuickHit L ∈ out.quickHits ∧
        (demoteToQuickHit L).summary = some L.description) ∧
      ((genArticles artB data.secondary).filter (fun a => !a._isFallback) = [] →
        out.lead = some ((generateArticleWithRetry (artB L) L).1)) := by
  obtain ⟨qh0, hout⟩ := generateSectionContent_ok_elim data cfg artB qhB L out hL hok
  constructor
  · intro g gs hgs
    rw [hout, route_promote _ _ _ _ _ hfb hgs]
    refine ⟨rfl, rfl, ?_, rfl⟩
    rw [genArticle_repo]
    simp
  · intro hgs
    rw [hout, route_keep _ _ _ hfb hgs]

/-- Witness for C4 at a concrete input. -/
theorem claim_C4_promotion_witness :
    c4Out.lead = some ((generateArticleWithRetry (badLeadBackend erS1) erS1).1) ∧
      demoteToQuickHit erL ∈ c4Out.quickHits := by
  have h := claim_C4_promotion c4Data aiSection badLeadBackend (.ok "") erL c4Out rfl rfl
    (by decide)
  have hg := h.1 ((generateArticleWithRetry (badLeadBackend erS1) erS1).1) [] (by decide)
  exact ⟨hg.1, hg.2.2.1⟩

/-! Claim C5: demotion of fallback secondaries. -/

/-- C5 (amended): the generated secondary list never contains a fallback
article, and every fallback secondary's repo is appended to the quick-hits
with summary equal to its description.  In the two-secondaries scenario
with exactly one good article, the returned secondary list has length 1
provided the lead article itself parsed (otherwise the single good
secondary is promoted to lead and the secondary list is empty). -/
theorem claim_C5_demotion (data : SectionOut) (cfg : SectionConfig)
    (artB : EnrichedRepo → ℕ → Except Unit String) (qhB : Except Unit String)
    (out : SectionContent)
    (hok : generateSectionContent data cfg artB qhB = .ok out) :
    (∀ a ∈ out.secondary, a._isFallback = false) ∧
      (∀ L, data.lead = some L → ∀ r ∈ data.secondary,
        ((generateArticleWithRetry (artB r) r).1)._isFallback = true →
        demoteToQuickHit r ∈ out.quickHits ∧
          (demoteToQuickHit r).summary = some r.description) ∧
      (∀ L, data.lead = some L →
        ((generateArticleWithRetry (artB L) L).1)._isFallback = false →
        ((genArticles artB data.secondary).filter fun a => !a._isFallback).length = 1 →
        data.secondary.length = 2 →
        out.secondary.length = 1) := by
  rcases hL : data.lead with - | L
  · simp only [generateSectionContent, hL, Except.ok.injEq] at hok
    rw [← hok]
    refine ⟨by simp, ?_, ?_⟩
    · intro L2 hL2
      exact Option.noConfusion hL2
    · intro L2 hL2
      exact Option.noConfusion hL2
  · obtain ⟨qh0, hout⟩ := generateSectionContent_ok_elim data cfg artB qhB L out hL hok
    by_cases hfb : ((generateArticleWithRetry (artB L) L).1)._isFallback = true
    · rcases hgs : (genArticles artB data.secondary).filter (fun a => !a._isFallback)
        with - | ⟨g, gs⟩
      · rw [hout, route_keep _ _ _ hfb hgs]
        refine ⟨by simp, ?_, ?_⟩
        · intro L2 hL2 r hr hfbr
          refine ⟨?_, rfl⟩
          simp only [List.mem_append]
          exact .inr (mem_demotedOf artB data.secondary r hr hfbr)
        · intro L2 hL2 hgood
          obtain rfl := Option.some.inj hL2
          rw [hgood] at hfb
          exact Bool.noConfusion hfb
      · rw [hout, route_promote _ _ _ _ _ hfb hgs]
        refine ⟨?_, ?_, ?_⟩
        · intro a ha
          exact mem_filter_not_fallback (genArticles artB data.secondary) a
            (hgs ▸ List.mem_cons_of_mem g ha)
        · intro L2 hL2 r hr hfbr
          refine ⟨?_, rfl⟩
          simp only [List.mem_append]
          exact .inr (.inl (mem_demotedOf artB data.secondary r hr hfbr))
        · intro L2 hL2 hgood
          obtain rfl := Option.some.inj hL2
          rw [hgood] at hfb
          exact Bool.noConfusion hfb
    · have hfb2 : ((generateArticleWithRetry (artB L) L).1)._isFallback = false := by
        simpa using hfb
      rw [hout, route_good _ _ _ hfb2]
      refine ⟨?_, ?_, ?_⟩
      · intro a ha
        exact mem_filter_not_fallback (genArticles artB data.secondary) a ha
      · intro L2 hL2 r hr hfbr
        refine ⟨?_, rfl⟩
        simp only [List.mem_append]
        exact .inr (mem_demotedOf artB data.secondary r hr hfbr)
      · intro L2 hL2 hgoodL hcount hlen
        simpa using hcount

/-- Witness for C5 at a concrete input. -/
theorem claim_C5_demotion_witness :
    (∀ a ∈ c5WitOut.secondary, a._isFallback = false) ∧
      (demoteToQuickHit erS2 ∈ c5WitOut.quickHits ∧
        (demoteToQuickHit erS2).summary = some erS2.description) ∧
      c5WitOut.secondary.length = 1 := by
  have h := claim_C5_demotion c5Data aiSection goodLeadBackend (.ok "") c5WitOut rfl
  exact ⟨h.1, h.2.1 erL rfl erS2 (by decide) (by decide),
    h.2.2 erL rfl (by decide) (by decide) (by decide)⟩

/-- Counterexample to C5's scenario as stated: with two secondaries of
which exactly one parses, but a fallback lead, the good secondary is
promoted to lead and the returned secondary list has length 0, not 1. -/
theorem claim_C5_demotion_counterexample :
    ((genArticles badLeadBackend c5Data.secondary).filter fun a => !a._isFallback).length = 1 ∧
      c5Data.secondary.length = 2 ∧
      ((generateSectionContent c5Data aiSection badLeadBackend (.ok "")).toOption.map
          fun o => o.secondary.length) = some 0 ∧
      ¬ ((generateSectionContent c5Data aiSection badLeadBackend (.ok "")).toOption.map
          fun o => o.secondary.length) = some 1 := by
  decide

/-! Lemmas about whole-run generation (claim C7). -/

theorem genSectionsLoop_cons (sections : String → Option SectionOut)
    (artBackend : EnrichedRepo → ℕ → Except Unit String)
    (quickHitsBackend : String → Except Unit String) (id : String) (rest : List String) :
    genSectionsLoop sections artBackend quickHitsBackend (id :: rest) =
      match SECTIONS id with
      | none => .error ()
      | some config =>
        if config.isXPulse then genSectionsLoop sections artBackend quickHitsBackend rest
        else
          match (match sections id with
            | none =>
              (.ok { lead := none, secondary := [], quickHits := [], isEmpty := true } :
                Except Unit SectionContent)
            | some d => generateSectionContent d config artBackend (quickHitsBackend id)) with
          | .error e => .error e
          | .ok sc =>
            match genSectionsLoop sections artBackend quickHitsBackend rest with
            | .error e => .error e
            | .ok acc => .ok ((id, sc) :: acc) := rfl

theorem generateSectionContent_invariant (data : SectionOut) (cfg : SectionConfig)
    (artB : EnrichedRepo → ℕ → Except Unit String) (qhB : Except Unit String)
    (sc : SectionContent)
    (hok : generateSectionContent data cfg artB qhB = .ok sc) :
    (sc.isEmpty = true ↔ sc.lead = none) ∧ sc.isXPulse = false := by
  rcases hL : data.lead with - | L
  · simp only [generateSectionContent, hL, Except.ok.injEq] at hok
    rw [← hok]
    simp
  · obtain ⟨qh0, hout⟩ := generateSectionContent_ok_elim data cfg artB qhB L sc hL hok
    have hf := routeSectionArticles_fields ((generateArticleWithRetry (artB L) L).1)
      (genArticles artB data.secondary) qh0
    rw [hout]
    refine ⟨?_, hf.2.2⟩
    rw [hf.1]
    constructor
    · intro h
      exact Bool.noConfusion h
    · intro h
      exact absurd h hf.2.1

theorem genSectionsLoop_spec (sections : String → Option SectionOut)
    (artB : EnrichedRepo → ℕ → Except Unit String)
    (qhB : String → Except Unit String) :
    ∀ ids res, genSectionsLoop sections artB qhB ids = .ok res →
      ∀ q ∈ res, ((q.2.isEmpty = true ↔ q.2.lead = none) ∧ q.2.isXPulse = false) ∧
        ∃ cfg, SECTIONS q.1 = some cfg ∧ cfg.isXPulse = false := by
  intro ids
  induction ids with
  | nil =>
    intro res hres q hq
    simp only [genSectionsLoop, Except.ok.injEq] at hres
    rw [← hres] at hq
    exact absurd hq (List.not_mem_nil q)
  | cons id rest ih =>
    intro res hres q hq
    rw [genSectionsLoop_cons] at hres
    rcases hcfg : SECTIONS id with - | cfg
    · rw [hcfg] at hres
      exact absurd hres (by simp)
    · rw [hcfg] at hres
      simp only [] at hres
      by_cases hxp : cfg.isXPulse = true
      · rw [if_pos hxp] at hres
        exact ih res hres q hq
      · have hxp2 : cfg.isXPulse = false := by simpa using hxp
        rw [if_neg hxp] at hres
        rcases hsd : sections id with - | d
        · simp only [hsd] at hres
          rcases hrest : genSectionsLoop sections artB qhB rest with e | acc
          · rw [hrest] at hres
            exact absurd hres (by simp)
          · rw [hrest] at hres
            simp only [Except.ok.injEq] at hres
            rw [← hres] at hq
            rcases List.mem_cons.mp hq with hq1 | hq2
            · rw [hq1]
              exact ⟨⟨by simp, rfl⟩, cfg, hcfg, hxp2⟩
            · exact ih acc hrest q hq2
        · simp only [hsd] at hres
          rcases hsc : generateSectionContent d cfg artB (qhB id) with e | sc
          · rw [hsc] at hres
            exact absurd hres (by simp)
          · rw [hsc] at hres
            rcases hrest : genSectionsLoop sections artB qhB rest with e | acc
            · rw [hrest] at hres
              exact absurd hres (by simp)
            · rw [hrest] at hres
              simp only [Except.ok.injEq] at hres
              rw [← hres] at hq
              rcases List.mem_cons.mp hq with hq1 | hq2
              · rw [hq1]
                have hinv := generateSectionContent_invariant d cfg artB (qhB id) sc hsc
                exact ⟨⟨hinv.1, hinv.2⟩, cfg, hcfg, hxp2⟩
              · exact ih acc hrest q hq2

theorem annotateSection_isEmpty (sb : EnrichedRepo → Except Unit String)
    (sc : SectionContent) : (annotateSection sb sc).isEmpty = sc.isEmpty := by
  unfold annotateSection
  split_ifs <;> rfl

theorem annotateSection_lead_none (sb : EnrichedRepo → Except Unit String)
    (sc : SectionContent) : ((annotateSection sb sc).lead = none) = (sc.lead = none) := by
  unfold annotateSection
  split_ifs
  · rfl
  · simp

theorem annotateSection_isXPulse (sb : EnrichedRepo → Except Unit String)
    (sc : SectionContent) : (annotateSection sb sc).isXPulse = sc.isXPulse := by
  unfold annotateSection
  split_ifs <;> rfl

/-! Claim C7: the SectionContent isEmpty invariant. -/

/-- C7 (amended): in the final per-run output, `isEmpty` is true iff `lead`
is null for every ordinary section (the empty-pool short-circuit, the
missing-data shape and every `generateSectionContent` result); the X Pulse
section however always has `lead = null` while its `isEmpty` reflects
whether any pulse items parsed, so a non-empty X Pulse section violates
the claimed equivalence. -/
theorem claim_C7_isEmpty_iff (sections : String → Option SectionOut)
    (artB : EnrichedRepo → ℕ → Except Unit String)
    (qhB : String → Except Unit String)
    (sentB : EnrichedRepo → Except Unit String)
    (pulseB : Except Unit String) (quote : String) (out : AllContent)
    (hok : generateAllContent sections artB qhB sentB pulseB quote = .ok out) :
    ∀ p ∈ out.sections,
      (p.1 ≠ "xPulse" → (p.2.isEmpty = true ↔ p.2.lead = none)) ∧
      (p.1 = "xPulse" → p.2.lead = none ∧
        (p.2.isEmpty = true ↔ p.2.pulseItems = [])) := by
  intro p hp
  simp only [generateAllContent] at hok
  rcases hloop : genSectionsLoop sections artB qhB SECTION_ORDER with e | result0
  · rw [hloop] at hok
    exact absurd hok (by simp)
  · rw [hloop] at hok
    simp only [Except.ok.injEq] at hok
    rw [← hok] at hp
    simp only [] at hp
    rcases List.mem_append.mp hp with hp1 | hp2
    · rcases List.mem_map.mp hp1 with ⟨q, hq, hpq⟩
      have hspec := genSectionsLoop_spec sections artB qhB SECTION_ORDER result0 hloop q hq
      rw [← hpq]
      constructor
      · intro _
        rw [annotateSection_isEmpty]
        rw [show (((q.1, annotateSection sentB q.2)).2.lead = none) =
          (q.2.lead = none) from annotateSection_lead_none sentB q.2]
        exact hspec.1.1
      · intro hxq
        obtain ⟨cfg, hcfg, hfalse⟩ := hspec.2
        rw [hxq] at hcfg
        have hx : xPulseSection = cfg :=
          Option.some.inj (hcfg : (some xPulseSection : Option SectionConfig) = some cfg)
        rw [← hx] at hfalse
        exact Bool.noConfusion hfalse
    · rw [List.mem_singleton.mp hp2]
      constructor
      · intro hne
        exact absurd rfl hne
      · intro _
        refine ⟨rfl, ?_⟩
        simp [List.isEmpty_iff]

/-- Witness for C7 at a concrete input: with a failed X Pulse fetch, the
X Pulse section of the output has a null lead and is empty iff it parsed
no pulse items. -/
theorem claim_C7_isEmpty_iff_witness :
    ("xPulse", (⟨none, [], [], true, true, []⟩ : SectionContent)) ∈ c7WitOut.sections ∧
      ((⟨none, [], [], true, true, []⟩ : SectionContent).lead = none ∧
        ((⟨none, [], [], true, true, []⟩ : SectionContent).isEmpty = true ↔
          (⟨none, [], [], true, true, []⟩ : SectionContent).pulseItems = [])) :=
  ⟨by decide,
    (claim_C7_isEmpty_iff (fun _ => none) (fun _ _ => .error ()) (fun _ => .error ())
        (fun _ => .error ()) (.error ()) "" c7WitOut rfl
        ("xPulse", ⟨none, [], [], true, true, []⟩) (by decide)).2 rfl⟩

/-- Counterexample to C7 as stated: with one parsed X Pulse topic, the
final output contains the X Pulse section with `lead = null` but
`isEmpty = false`, so `isEmpty` is not equivalent to `lead = null`. -/
theorem claim_C7_isEmpty_iff_counterexample :
    ("xPulse", (⟨none, [], [], false, true, [⟨"Foo", "", "neutral", ""⟩]⟩ : SectionContent)) ∈
        c7CexOut.sections ∧
      (⟨none, [], [], false, true, [⟨"Foo", "", "neutral", ""⟩]⟩ : SectionContent).lead = none ∧
      ¬ ((⟨none, [], [], false, true, [⟨"Foo", "", "neutral", ""⟩]⟩ :
          SectionContent).isEmpty = true) := by
  decide

/-! Lemmas about the section orchestration (claim C1). -/

theorem mem_insertByScoreDesc (x y : Repo) (l : List Repo) :
    y ∈ insertByScoreDesc x l ↔ y = x ∨ y ∈ l := by
  induction l with
  | nil => simp [insertByScoreDesc]
  | cons a as ih =>
    simp only [insertByScoreDesc]
    split_ifs with h
    · simp only [List.mem_cons, ih]
      tauto
    · exact List.mem_cons

theorem mem_sortByScoreDesc (y : Repo) (l : List Repo) :
    y ∈ sortByScoreDesc l ↔ y ∈ l := by
  induction l with
  | nil => simp [sortByScoreDesc]
  | cons a as ih => simp [sortByScoreDesc, mem_insertByScoreDesc, ih]

theorem promotedOf_eq_cons (c : CatResult) (lead : Repo) (hc : c.lead = some lead) :
    promotedOf c = lead :: c.secondary := by
  simp [promotedOf, hc]

theorem sectionAllocation_promoted_not_seen (log1p : ℚ → ℚ)
    (qres : List (List Repo)) (budget : Budget) (seen recentRepoNames : List String)
    (now : ℚ) (x : Repo)
    (hx : x ∈ promotedOf (sectionAllocation log1p qres budget seen recentRepoNames now)) :
    x.full_name ∉ seen := by
  simp only [sectionAllocation] at hx
  have hx2 := categorize_promoted_mem _ _ _ hx
  rw [mem_sortByScoreDesc] at hx2
  rcases List.mem_map.mp hx2 with ⟨y, hy, hxy⟩
  have hfy := (List.mem_filter.mp hy).2
  intro hmem
  rw [← hxy] at hmem
  have hmem2 : y.full_name ∈ seen := hmem
  have hcont : (seen.contains y.full_name) = true := List.elem_iff.mpr hmem2
  rw [hcont] at hfy
  exact Bool.noConfusion hfy

theorem categorize_lead_none (l : List Repo) (b : Budget)
    (h : (categorizeDiverseForSection l b).lead = none) :
    (categorizeDiverseForSection l b).secondary = [] := by
  unfold categorizeDiverseForSection at h ⊢
  split_ifs at h ⊢ with he
  · rfl
  · simp only [] at h ⊢
    rw [List.head?_eq_none_iff] at h
    rw [h]
    rfl

theorem sectionPromotedNames_enriched (o : GhOracles) (lead : Repo) (sec : List Repo)
    (qh : List QuickHit) :
    sectionPromotedNames ⟨((lead :: sec).map (enrichRepo o)).head?,
        ((lead :: sec).map (enrichRepo o)).drop 1, qh⟩ =
      (lead :: sec).map fun r => r.full_name := by
  simp only [sectionPromotedNames, List.map_cons, List.head?_cons, List.drop_succ_cons,
    List.drop_zero, List.map_map]
  rfl

theorem fetchAndEnrichSection_spec (o : GhOracles) (log1p : ℚ → ℚ)
    (qres : List (List Repo)) (budget : Budget) (seen recentRepoNames : List String)
    (now : ℚ) :
    (∀ n ∈ sectionPromotedNames
        (fetchAndEnrichSection o log1p qres budget seen recentRepoNames now).1, n ∉ seen) ∧
      (∀ n, n ∈ (fetchAndEnrichSection o log1p qres budget seen recentRepoNames now).2 ↔
        n ∈ seen ∨ n ∈ sectionPromotedNames
          (fetchAndEnrichSection o log1p qres budget seen recentRepoNames now).1) := by
  simp only [fetchAndEnrichSection]
  split_ifs with hemp
  · constructor
    · intro n hn
      simp [sectionPromotedNames] at hn
    · intro n
      simp [sectionPromotedNames]
  · rcases hc : (sectionAllocation log1p qres budget seen recentRepoNames now).lead
      with - | lead
    · have hsec := by
        have : sectionAllocation log1p qres budget seen recentRepoNames now =
            categorizeDiverseForSection (sortByScoreDesc
              (((fetchSectionRepos qres).filter fun r => !(seen.contains r.full_name)).map
                (attachScore log1p ⟨now, recentRepoNames⟩))) budget := rfl
        exact categorize_lead_none _ _ (this ▸ hc)
      simp only [hc]
      constructor
      · intro n hn
        simp [sectionPromotedNames] at hn
      · intro n
        have hsec2 : (sectionAllocation log1p qres budget seen recentRepoNames now).secondary
            = [] := hsec
        simp [sectionPromotedNames, hsec2]
    · simp only [hc]
      have hnames := sectionPromotedNames_enriched o lead
        (sectionAllocation log1p qres budget seen recentRepoNames now).secondary
        ((sectionAllocation log1p qres budget seen recentRepoNames now).quickHits.map
          toQuickHit)
      constructor
      · intro n hn
        rw [hnames] at hn
        rcases List.mem_map.mp hn with ⟨x, hxmem, hxn⟩
        have hxp : x ∈ promotedOf (sectionAllocation log1p qres budget seen
            recentRepoNames now) := by
          rw [promotedOf_eq_cons _ lead hc]
          exact hxmem
        rw [← hxn]
        exact sectionAllocation_promoted_not_seen log1p qres budget seen recentRepoNames
          now x hxp
      · intro n
        rw [hnames]
        simp only [List.mem_append, Option.toList_some, List.singleton_append,
          List.map_cons, List.mem_cons]

theorem runTopicSections_cons (o : GhOracles) (log1p : ℚ → ℚ)
    (sectQ : String → List (List Repo)) (recentRepoNames : List String) (now : ℚ)
    (id : String) (rest : List String) (seen : List String) :
    runTopicSections o log1p sectQ recentRepoNames now (id :: rest) seen =
      if id = "frontPage" then runTopicSections o log1p sectQ recentRepoNames now rest seen
      else
        match SECTIONS id with
        | none => runTopicSections o log1p sectQ recentRepoNames now rest seen
        | some config =>
          match config.query with
          | none => runTopicSections o log1p sectQ recentRepoNames now rest seen
          | some _ =>
            ((id, (fetchAndEnrichSection o log1p (sectQ id) config.budget seen
                recentRepoNames now).1) ::
              (runTopicSections o log1p sectQ recentRepoNames now rest
                (fetchAndEnrichSection o log1p (sectQ id) config.budget seen
                  recentRepoNames now).2).1,
              (runTopicSections o log1p sectQ recentRepoNames now rest
                (fetchAndEnrichSection o log1p (sectQ id) config.budget seen
                  recentRepoNames now).2).2) := rfl

theorem runTopicSections_spec (o : GhOracles) (log1p : ℚ → ℚ)
    (sectQ : String → List (List Repo)) (recentRepoNames : List String) (now : ℚ) :
    ∀ (ids : List String) (seen : List String),
      (∀ n ∈ seen, n ∈ (runTopicSections o log1p sectQ recentRepoNames now ids seen).2) ∧
        (∀ q ∈ (runTopicSections o log1p sectQ recentRepoNames now ids seen).1,
          ∀ n ∈ sectionPromotedNames q.2,
            n ∉ seen ∧ n ∈ (runTopicSections o log1p sectQ recentRepoNames now ids seen).2) ∧
        List.Pairwise (fun s t => ∀ n ∈ sectionPromotedNames s.2,
          n ∉ sectionPromotedNames t.2)
          (runTopicSections o log1p sectQ recentRepoNames now ids seen).1 := by
  intro ids
  induction ids with
  | nil =>
    intro seen
    refine ⟨fun n hn => hn, ?_, List.Pairwise.nil⟩
    intro q hq
    exact absurd hq (List.not_mem_nil q)
  | cons id rest ih =>
    intro seen
    rw [runTopicSections_cons]
    by_cases hfp : id = "frontPage"
    · rw [if_pos hfp]
      exact ih seen
    · rw [if_neg hfp]
      rcases hcfg : SECTIONS id with - | cfg
      · simp only [hcfg]
        exact ih seen
      · simp only [hcfg]
        rcases hq0 : cfg.query with - | q0
        · simp only [hq0]
          exact ih seen
        · simp only [hq0]
          have hspec := fetchAndEnrichSection_spec o log1p (sectQ id) cfg.budget seen
            recentRepoNames now
          have hrec := ih (fetchAndEnrichSection o log1p (sectQ id) cfg.budget seen
            recentRepoNames now).2
          refine ⟨?_, ?_, ?_⟩
          · intro n hn
            exact hrec.1 n ((hspec.2 n).mpr (.inl hn))
          · intro q hq n hnq
            rcases List.mem_cons.mp hq with hq1 | hq2
            · rw [hq1] at hnq
              refine ⟨hspec.1 n hnq, ?_⟩
              exact hrec.1 n ((hspec.2 n).mpr (.inr hnq))
            · have h2 := hrec.2.1 q hq2 n hnq
              refine ⟨?_, h2.2⟩
              intro hn
              exact h2.1 ((hspec.2 n).mpr (.inl hn))
          · refine List.Pairwise.cons ?_ hrec.2.2
            intro t ht n hn hnt
            have h2 := hrec.2.1 t ht n hnt
            exact h2.1 ((hspec.2 n).mpr (.inr hn))

/-! Claim C1: cross-section deduplication. -/

/-- C1: with the front page orchestrated first and the topic sections run
sequentially in declared order, no repository full name appears as lead or
secondary in two different sections of a run; each section's step adds
exactly its own lead + secondary names (not its quick-hits) to the shared
claimed-names set, and the names a section promotes are never names that
were already claimed when it ran (they are filtered from its pool before
scoring). -/
theorem claim_C1_cross_section_dedup :
    (∀ (o : GhOracles) (log1p : ℚ → ℚ) (resultA resultB ossInsightRepos : List Repo)
        (sectQ : String → List (List Repo)) (recentRepoNames : List String) (now : ℚ)
        (out : List (String × SectionOut)),
      fetchAllSections o log1p resultA resultB ossInsightRepos sectQ recentRepoNames now =
          .ok out →
      out.Pairwise fun s t => ∀ n ∈ sectionPromotedNames s.2,
        n ∉ sectionPromotedNames t.2) ∧
      (∀ (o : GhOracles) (log1p : ℚ → ℚ) (qres : List (List Repo)) (budget : Budget)
          (seen recentRepoNames : List String) (now : ℚ) (n : String),
        n ∈ (fetchAndEnrichSection o log1p qres budget seen recentRepoNames now).2 ↔
          n ∈ seen ∨ n ∈ sectionPromotedNames
            (fetchAndEnrichSection o log1p qres budget seen recentRepoNames now).1) ∧
      (∀ (o : GhOracles) (log1p : ℚ → ℚ) (qres : List (List Repo)) (budget : Budget)
          (seen recentRepoNames : List String) (now : ℚ) (n : String),
        n ∈ sectionPromotedNames
            (fetchAndEnrichSection o log1p qres budget seen recentRepoNames now).1 →
          n ∉ seen) := by
  refine ⟨?_, ?_, ?_⟩
  · intro o log1p resultA resultB oss sectQ recentRepoNames now out hok
    simp only [fetchAllSections] at hok
    rcases hfe : fetchAndEnrich o log1p resultA resultB oss recentRepoNames now with e | fp
    · rw [hfe] at hok
      exact absurd hok (by simp)
    · rw [hfe] at hok
      simp only [Except.ok.injEq] at hok
      rw [← hok]
      have hrun := runTopicSections_spec o log1p sectQ recentRepoNames now SECTION_ORDER
        (sectionPromotedNames fp)
      refine List.Pairwise.cons ?_ hrun.2.2
      intro t ht n hn hnt
      have h2 := hrun.2.1 t ht n hnt
      exact h2.1 hn
  · intro o log1p qres budget seen recentRepoNames now n
    exact (fetchAndEnrichSection_spec o log1p qres budget seen recentRepoNames now).2 n
  · intro o log1p qres budget seen recentRepoNames now n
    exact (fetchAndEnrichSection_spec o log1p qres budget seen recentRepoNames now).1 n

/-- Witness for C1 at a concrete run. -/
theorem claim_C1_cross_section_dedup_witness :
    c1Out.Pairwise (fun s t => ∀ n ∈ sectionPromotedNames s.2,
      n ∉ sectionPromotedNames t.2) ∧
      ("o/x" ∈ (fetchAndEnrichSection ⟨fun _ => none, fun _ => none⟩ (fun _ => 0) []
          ⟨3, 5⟩ ["o/x"] [] 0).2 ↔
        "o/x" ∈ ["o/x"] ∨ "o/x" ∈ sectionPromotedNames
          (fetchAndEnrichSection ⟨fun _ => none, fun _ => none⟩ (fun _ => 0) []
            ⟨3, 5⟩ ["o/x"] [] 0).1) :=
  ⟨claim_C1_cross_section_dedup.1 ⟨fun _ => none, fun _ => none⟩ (fun _ => 0) [c1Repo]
      [] [] (fun _ => []) [] 0 c1Out rfl,
    claim_C1_cross_section_dedup.2.1 ⟨fun _ => none, fun _ => none⟩ (fun _ => 0) []
      ⟨3, 5⟩ ["o/x"] [] 0 "o/x"⟩

end GitTimes
